import Mathlib

/-!
# Verification of the shapetree.js core

Shallow embedding, in Lean 4, of the core of the `shapetrees/shapetree.js`
repository: the Container model, the Mutex, the RemoteShapeTree walk / match /
static-instantiation algorithms (`lib/shape-tree.js`), the SimpleApps caching
fetch (`ecosystems/simple-apps.js`), and the not-found guards of the protocol
dispatcher (`lib/shape-tree-fetch.js`).

JavaScript strings are modelled as Lean `String` (or `List Char` where the
algorithm works character by character), RDF stores as lists of triples with
set semantics (`addQuad` is a no-op on a triple already present, `removeQuad`
removes every copy, matching N3.Store), thrown exceptions as `Except`, and
`undefined`-propagating crashes as `Option`.
-/

set_option maxRecDepth 4000

namespace ShapeTreeJs

/-- Equality of `Except` values is decidable componentwise (needed so that
witness facts about `Except`-returning operations evaluate by `decide`). -/
instance {ε α : Type} [DecidableEq ε] [DecidableEq α] : DecidableEq (Except ε α) := fun x y =>
  match x, y with
  | .ok a, .ok b =>
    if h : a = b then isTrue (congrArg Except.ok h)
    else isFalse (fun hc => h (Except.ok.inj hc))
  | .error e1, .error e2 =>
    if h : e1 = e2 then isTrue (congrArg Except.error h)
    else isFalse (fun hc => h (Except.error.inj hc))
  | .ok _, .error _ => isFalse (fun hc => Except.noConfusion hc)
  | .error _, .ok _ => isFalse (fun hc => Except.noConfusion hc)

/-! ## RDF terms, triples and graphs

N3.Store distinguishes named nodes from literals; both carry a string value.
A quad's graph component is always the default graph here, so it is omitted.
-/

/-- An RDF term: a named node (IRI / blank node) or a literal. -/
inductive Term where
  | iri (v : String)
  | lit (v : String)
  deriving DecidableEq, Repr

/-- An RDF triple (subject, predicate, object); predicates are always IRIs in
the source, so the predicate is a bare string. -/
structure Triple where
  s : Term
  p : String
  o : Term
  deriving DecidableEq, Repr

/-- A graph is the quad list of an N3.Store: insertion-ordered, duplicate-free
(`addQuad` checks membership, mirroring the store's set semantics). -/
abbrev Graph := List Triple

/-- N3.Store.addQuad: adding an already-present quad is a no-op. -/
def addQuad (g : Graph) (t : Triple) : Graph :=
  if t ∈ g then g else g ++ [t]

/-- N3.Store.removeQuad: removes the quad (all copies; a well-formed store
holds at most one). -/
def removeQuad (g : Graph) (t : Triple) : Graph :=
  g.filter (· ≠ t)

/-- N3.Store.getQuads(s, p, null): quads with the given subject and predicate,
in store order. -/
def getQuadsSP (g : Graph) (s : Term) (p : String) : List Triple :=
  g.filter (fun t => t.s = s ∧ t.p = p)

/-- N3.Store.getQuads(s, p, o): quads matching subject, predicate and object. -/
def getQuadsSPO (g : Graph) (s : Term) (p : String) (o : Term) : List Triple :=
  g.filter (fun t => t.s = s ∧ t.p = p ∧ t.o = o)

/-- Modelled from the spec: `rdfInterface.zeroOrOne`, the zero-or-one triple
lookup helper of the rdf-serialization module (which is not under src/; §6 of
the spec lists it as "single/zero-or-one triple lookup helpers"). It returns
the first matching quad, or nothing when there is none. -/
def zeroOrOne (g : Graph) (s : Term) (p : String) : Option Triple :=
  (getQuadsSP g s p).head?

/-- Namespace constants from `lib/prefixes.js` (values as used in
`lib/shape-tree.js`). -/
def ns_ldp : String := "http://www.w3.org/ns/ldp#"

def ns_tree : String := "http://www.w3.org/ns/shapetree#"

def ns_rdfs : String := "http://www.w3.org/2000/01/rdf-schema#"

/-! ## Container (lib/shape-tree.js lines 44-109)

The constructor's identifier checks and the membership operations. The JS
`url` argument must be an instance of `URL` (hence an absolute URL); a
non-URL argument is the `rawValue` constructor below.
-/

/-- The `pathname` of a WHATWG URL instance (always starts with "/"). -/
structure UrlRec where
  pathname : String
  deriving DecidableEq, Repr

/-- The `url` argument of the Container constructor: either a URL instance or
some other JS value (a string, undefined, ...). -/
inductive UrlArg where
  | url (u : UrlRec)
  | rawValue (s : String)
  deriving DecidableEq, Repr

/-- Model of JS `String.endsWith`. -/
def jsEndsWith (s suffixStr : String) : Bool :=
  decide (suffixStr.data.reverse <+: s.data.reverse)

/-- Errors thrown by the Container constructor (plain `Error` in the source,
distinguished by message). -/
inductive CtorErr where
  | notUrlInstance (v : String)
  | noTrailingSlash (pathname : String)
  | doubleTrailingSlash (pathname : String)
  deriving DecidableEq, Repr

/-- In-memory Container state (`lib/shape-tree.js` lines 44-58): identifier,
statement-set, known sub-container identifiers. The namespace map and lock
are modelled separately where a claim needs them. -/
structure Container where
  urlHref : String
  graph : Graph
  subdirs : List String
  deriving DecidableEq, Repr

/-- Container constructor checks (`lib/shape-tree.js` lines 45-51): the
identifier must be a URL instance whose pathname ends with "/" but not with
"//"; on success the fresh container state is created, on failure nothing is. -/
def mkContainer (arg : UrlArg) (href : String) : Except CtorErr Container :=
  match arg with
  | .rawValue s => .error (.notUrlInstance s)
  | .url u =>
    if ¬ jsEndsWith u.pathname "/" then .error (.noTrailingSlash u.pathname)
    else if jsEndsWith u.pathname "//" then .error (.doubleTrailingSlash u.pathname)
    else .ok { urlHref := href, graph := [], subdirs := [] }

/-- The ldp:contains membership triple from a container to a child. -/
def containsTriple (containerHref childHref : String) : Triple :=
  ⟨.iri containerHref, ns_ldp ++ "contains", .iri childHref⟩

/-- Container.addMember (lines 100-103): adds the containment triple. -/
def Container.addMember (c : Container) (location : String) : Container :=
  { c with graph := addQuad c.graph (containsTriple c.urlHref location) }

/-- Container.removeMember (lines 105-108): removes the containment triple. -/
def Container.removeMember (c : Container) (location : String) : Container :=
  { c with graph := removeQuad c.graph (containsTriple c.urlHref location) }

/-- Number of trailing '/' characters of a string. -/
def trailingSlashes (s : String) : Nat :=
  (s.data.reverse.takeWhile (· = '/')).length

end ShapeTreeJs

namespace ShapeTreeJs

/-! ### Lemmas about trailing slashes -/

theorem jsEndsWith_slash_iff (s : String) :
    jsEndsWith s "/" = true ↔ 1 ≤ trailingSlashes s := by
  unfold jsEndsWith trailingSlashes
  rw [decide_eq_true_iff]
  show ['/'] <+: s.data.reverse ↔ _
  cases h : s.data.reverse with
  | nil => simp [List.takeWhile]
  | cons c rest =>
    constructor
    · rintro ⟨t, ht⟩
      simp only [List.cons_append, List.nil_append, List.cons.injEq] at ht
      obtain ⟨rfl, rfl⟩ := ht
      simp [List.takeWhile]
    · intro hlen
      rcases hc : decide (c = '/') with hq | hq
      · simp [List.takeWhile, hc] at hlen
      · have : c = '/' := of_decide_eq_true hc
        exact ⟨rest, by simp [this]⟩

theorem jsEndsWith_dslash_iff (s : String) :
    jsEndsWith s "//" = true ↔ 2 ≤ trailingSlashes s := by
  unfold jsEndsWith trailingSlashes
  rw [decide_eq_true_iff]
  show ['/', '/'] <+: s.data.reverse ↔ _
  cases h : s.data.reverse with
  | nil => simp [List.takeWhile]
  | cons c rest =>
    cases rest with
    | nil =>
      constructor
      · rintro ⟨t, ht⟩; simp at ht
      · intro hlen
        by_cases hc : c = '/' <;> simp [List.takeWhile, hc] at hlen
    | cons c2 rest2 =>
      constructor
      · rintro ⟨t, ht⟩
        simp only [List.cons_append, List.nil_append, List.cons.injEq] at ht
        obtain ⟨rfl, rfl, _⟩ := ht
        simp [List.takeWhile]
      · intro hlen
        by_cases hc : c = '/'
        · by_cases hc2 : c2 = '/'
          · exact ⟨rest2, by simp [hc, hc2]⟩
          · simp [List.takeWhile, hc, hc2] at hlen
        · simp [List.takeWhile, hc] at hlen

/-- C9. For every identifier used to open a Container, construction succeeds
exactly when the identifier is a URL instance (hence an absolute URL) whose
pathname ends in exactly one trailing '/'; with zero or two (or more)
trailing separators, or a non-URL argument, construction fails with an
identifier-format error, and no container state is produced (the `Except` is
an error, so no `Container` value exists). -/
theorem container_ctor_trailing_slash (arg : UrlArg) (href : String) :
    (∃ c, mkContainer arg href = .ok c) ↔
      (∃ u, arg = .url u ∧ trailingSlashes u.pathname = 1) := by
  constructor
  · rintro ⟨c, hc⟩
    cases arg with
    | rawValue s => simp [mkContainer] at hc
    | url u =>
      refine ⟨u, rfl, ?_⟩
      by_cases h1 : jsEndsWith u.pathname "/" = true
      · by_cases h2 : jsEndsWith u.pathname "//" = true
        · simp [mkContainer, h1, h2] at hc
        · have hge := (jsEndsWith_slash_iff u.pathname).mp h1
          have hlt : ¬ 2 ≤ trailingSlashes u.pathname := by
            intro h; exact h2 ((jsEndsWith_dslash_iff u.pathname).mpr h)
          omega
      · simp [mkContainer, h1] at hc
  · rintro ⟨u, rfl, hone⟩
    have h1 : jsEndsWith u.pathname "/" = true :=
      (jsEndsWith_slash_iff u.pathname).mpr (by omega)
    have h2 : ¬ jsEndsWith u.pathname "//" = true := by
      intro h
      have := (jsEndsWith_dslash_iff u.pathname).mp h
      omega
    refine ⟨{ urlHref := href, graph := [], subdirs := [] }, ?_⟩
    simp [mkContainer, h1, h2]

/-! ### C3: addMember / removeMember round trip -/

/-- C3 counterexample. The claim fails when the containment triple is already
present: the statement-set is a deduplicated set, so `addMember` is a no-op
and `removeMember` then deletes the pre-existing triple. Concretely, for a
container whose graph already contains its membership triple for member "m",
add-then-remove does not restore the prior state. -/
theorem addMember_removeMember_not_roundtrip_cex :
    let c : Container :=
      { urlHref := "http://host/c/"
        graph := [containsTriple "http://host/c/" "http://host/c/m"]
        subdirs := [] }
    ((c.addMember "http://host/c/m").removeMember "http://host/c/m") ≠ c := by
  decide

/-- C3 (amended). Provided the containment triple for the member is not
already in the container's statement-set, calling addMember then removeMember
with the same member identifier restores the container to its exact prior
state. -/
theorem addMember_removeMember_roundtrip (c : Container) (m : String)
    (h : containsTriple c.urlHref m ∉ c.graph) :
    (c.addMember m).removeMember m = c := by
  cases c with
  | mk href g subs =>
    simp only [Container.addMember, Container.removeMember, addQuad] at *
    simp only [h, if_false, removeQuad]
    congr 1
    have h2 : g.filter (fun x => x ≠ containsTriple href m) = g :=
      List.filter_eq_self.mpr (fun a ha => by
        simp only [ne_eq, decide_eq_true_eq]
        intro heq; exact h (heq ▸ ha))
    rw [List.filter_append, h2]
    simp

/-- C3 witness for the amended round trip at a concrete container. -/
theorem addMember_removeMember_roundtrip_witness :
    let c : Container := { urlHref := "http://host/c/", graph := [], subdirs := [] }
    (c.addMember "http://host/c/m").removeMember "http://host/c/m" = c :=
  addMember_removeMember_roundtrip
    { urlHref := "http://host/c/", graph := [], subdirs := [] }
    "http://host/c/m" (by decide)

end ShapeTreeJs

namespace ShapeTreeJs

/-! ## Mutex (lib/shape-tree.js lines 20-37) and Container.write (lines 76-83)

The Mutex chains promises: `lock()` builds
  `willLock`   - resolves when this holder later calls its unlock function;
  `willUnlock = _locking.then(() => unlockNext)` - the waitable handed back,
                 which resolves as soon as the chain so far has resolved;
  `_locking   := _locking.then(() => willLock)` - the new chain, which
                 resolves once the old chain has resolved and this holder has
                 released.

Under the single-threaded cooperative scheduling of the runtime each promise
has a resolution time.  Writing `r n` for the instant at which the n-th
acquirer (0-based, in acquisition order) calls its unlock function, the
resolution time of the chain after n acquisitions and the grant time of the
n-th waitable follow by the `then` rule (a `then` promise resolves when both
its parent and the promise returned by its callback have resolved):
  chain 0     = 0                    (the initial resolved `Promise.resolve()`)
  chain (n+1) = max (chain n) (r n)  (old chain, then `willLock` n resolves at r n)
  grant n     = chain n              (`willUnlock` n resolves with the chain so far).
-/

/-- Resolution time of the Mutex `_locking` chain after `n` acquisitions,
given the release instants `r`. -/
def mutexChainTime (r : Nat → Nat) : Nat → Nat
  | 0 => 0
  | n + 1 => max (mutexChainTime r n) (r n)

/-- Instant at which the `n`-th acquisition's waitable (`willUnlock`)
resolves, i.e. when its critical section may begin. -/
def mutexGrantTime (r : Nat → Nat) (n : Nat) : Nat :=
  mutexChainTime r n

/-- Outcome of Container.write: whether the lock was released, and the value
or error propagated to the caller.  `lib/shape-tree.js` lines 78-81 attach
both a fulfillment handler and a rejection handler to the
`fileSystem.writeContainer` promise; each calls `unlock()`, the first returns
the value, the second re-throws the error. -/
structure WriteOutcome where
  released : Bool
  result : Except String Unit
  deriving Repr

/-- Container.write, as a function of the outcome of the underlying
`fileSystem.writeContainer` call. -/
def containerWrite (fsResult : Except String Unit) : WriteOutcome :=
  match fsResult with
  | .ok u => { released := true, result := .ok u }
  | .error e => { released := true, result := .error e }

theorem mutexChainTime_mono (r : Nat → Nat) {m n : Nat} (h : m ≤ n) :
    mutexChainTime r m ≤ mutexChainTime r n := by
  induction n with
  | zero => simp [Nat.le_zero.mp h]
  | succ k ih =>
    rcases Nat.lt_or_ge m (k + 1) with hlt | hge
    · exact le_trans (ih (Nat.lt_succ_iff.mp hlt)) (le_max_left _ _)
    · have : m = k + 1 := le_antisymm h hge
      simp [this]

/-- C2. The per-Container Mutex is strict FIFO: for any release schedule `r`
(the instant each holder calls unlock), an earlier acquisition `i` has
released no later than the instant a later acquisition `j` is granted, so
critical sections run in acquisition order and never overlap; grant instants
are monotone in acquisition order; and Container.write releases the lock on
both the success path and the failure path, propagating the underlying
result unchanged. -/
theorem mutex_fifo_and_write_release (r : Nat → Nat) (fsResult : Except String Unit)
    (i j : Nat) (hij : i < j) :
    r i ≤ mutexGrantTime r j ∧
    mutexGrantTime r i ≤ mutexGrantTime r j ∧
    (containerWrite fsResult).released = true ∧
    (containerWrite fsResult).result = fsResult := by
  refine ⟨?_, ?_, ?_, ?_⟩
  · have h1 : r i ≤ mutexChainTime r (i + 1) := le_max_right _ _
    exact le_trans h1 (mutexChainTime_mono r hij)
  · exact mutexChainTime_mono r (Nat.le_of_lt hij)
  · cases fsResult <;> rfl
  · cases fsResult <;> rfl

/-- C2 witness: the FIFO and release properties at a concrete release
schedule, a concrete failing filesystem outcome, and acquisitions 0 < 1. -/
theorem mutex_fifo_and_write_release_witness :
    (0 : Nat) < 1 ∧
    ((fun n => n + 5) 0 ≤ mutexGrantTime (fun n => n + 5) 1 ∧
     mutexGrantTime (fun n => n + 5) 0 ≤ mutexGrantTime (fun n => n + 5) 1 ∧
     (containerWrite (.error "disk full")).released = true ∧
     (containerWrite (.error "disk full")).result = .error "disk full") :=
  ⟨by decide, mutex_fifo_and_write_release (fun n => n + 5) (.error "disk full") 0 1 (by decide)⟩

end ShapeTreeJs

namespace ShapeTreeJs

/-! ## RemoteShapeTree.matchingStep (lib/shape-tree.js lines 288-322) -/

/-- The string value of a term (`.value` in RDFJS). -/
def termVal : Term → String
  | .iri v => v
  | .lit v => v

/-- Remove the first occurrence of `pat` from `s` - the model of JS
`s.replace(pat, '')` with a plain-string pattern (used at line 315 to strip
the ldp namespace from the expected type). -/
def replaceFirstAux (pat : List Char) : List Char → List Char
  | [] => []
  | c :: rest =>
    if pat.isPrefixOf (c :: rest) then (c :: rest).drop pat.length
    else c :: replaceFirstAux pat rest

def jsReplaceFirst (s pat : String) : String :=
  ⟨replaceFirstAux pat.data s.data⟩

/-- The `tree:contents` children of a schema node, in store order
(line 289-290). -/
def stepContents (g : Graph) (node : Term) : List Term :=
  (getQuadsSP g node (ns_tree ++ "contents")).map (·.o)

/-- The value handed to `new UriTemplate(...)` for a child: the first
`tree:uriTemplate` object if any (`getQuads(...)[0]`, line 295-297),
`undefined` otherwise. -/
def stepTemplate (g : Graph) (step : Term) : Option Term :=
  ((getQuadsSP g step (ns_tree ++ "uriTemplate")).map (·.o)).head?

/-- The filtered choice list (lines 291-298): with no slug every child
qualifies; with a slug, those children whose URI template matches it, where
`matcher tpl sl` models `new UriTemplate(tpl).match(sl)` (the uri-template-lite
library is an external dependency, so matching is a parameter). -/
def stepChoices (g : Graph) (matcher : Option Term → String → Bool)
    (node : Term) (slug : Option String) : List Term :=
  (stepContents g node).filter (fun step =>
    match slug with
    | none => true
    | some sl => matcher (stepTemplate g step) sl)

/-- The two failure messages of `Errors.UriTemplateMatchError` (lines 300 and
303). -/
inductive MatchMsg where
  | noMatchIn (nodeV : String) (contents : List String)
  | ambiguousAgainst (contents : List String)
  deriving DecidableEq, Repr

/-- The error thrown by matchingStep. -/
inductive MatchErr where
  | uriTemplateMatch (slug : Option String) (msg : MatchMsg)
  deriving DecidableEq, Repr

/-- The returned step record (lines 304-316). -/
structure MatchStep where
  node : Term
  typeNode : Option Term
  name : Option Term
  uriTemplate : Option Term
  shape : Option Term
  contents : List Term
  type : Option String
  deriving DecidableEq, Repr

/-- The `obj(property)` helper (lines 318-321): zero-or-one lookup of a
tree-namespace property of the chosen step. -/
def stepObj (g : Graph) (choice : Term) (property : String) : Option Term :=
  (zeroOrOne g choice (ns_tree ++ property)).map (·.o)

/-- RemoteShapeTree.matchingStep (lines 288-322). -/
def matchingStep (g : Graph) (matcher : Option Term → String → Bool)
    (shapeTreeNode : Term) (slug : Option String) : Except MatchErr MatchStep :=
  let contents := stepContents g shapeTreeNode
  match stepChoices g matcher shapeTreeNode slug with
  | [] => .error (.uriTemplateMatch slug
      (.noMatchIn (termVal shapeTreeNode) (contents.map termVal)))
  | c :: rest =>
    if 0 < rest.length then
      .error (.uriTemplateMatch slug (.ambiguousAgainst (contents.map termVal)))
    else
      let typeNode := stepObj g c "expectedType"
      .ok { node := c
            typeNode := typeNode
            name := stepObj g c "name"
            uriTemplate := stepObj g c "uriTemplate"
            shape := stepObj g c "shape"
            contents := stepContents g c
            type := typeNode.map (fun t => jsReplaceFirst (termVal t) ns_ldp) }

/-- C6. matchingStep filters the node's children by URI-template match
against the requested name (all children qualify when no name is given);
zero qualifying children yields the no-match error, more than one yields the
ambiguous-match error, and exactly one yields the step carrying the declared
expected type, name, URI template, shape and child nodes of the match. -/
theorem matchingStep_trichotomy (g : Graph) (matcher : Option Term → String → Bool)
    (node : Term) (slug : Option String) :
    (slug = none → stepChoices g matcher node slug = stepContents g node) ∧
    (stepChoices g matcher node slug = [] →
      matchingStep g matcher node slug =
        .error (.uriTemplateMatch slug
          (.noMatchIn (termVal node) ((stepContents g node).map termVal)))) ∧
    (∀ c c2 rest, stepChoices g matcher node slug = c :: c2 :: rest →
      matchingStep g matcher node slug =
        .error (.uriTemplateMatch slug
          (.ambiguousAgainst ((stepContents g node).map termVal)))) ∧
    (∀ c, stepChoices g matcher node slug = [c] →
      matchingStep g matcher node slug =
        .ok { node := c
              typeNode := stepObj g c "expectedType"
              name := stepObj g c "name"
              uriTemplate := stepObj g c "uriTemplate"
              shape := stepObj g c "shape"
              contents := stepContents g c
              type := (stepObj g c "expectedType").map
                (fun t => jsReplaceFirst (termVal t) ns_ldp) }) := by
  refine ⟨?_, ?_, ?_, ?_⟩
  · rintro rfl
    simp [stepChoices]
  · intro h
    simp [matchingStep, h]
  · intro c c2 rest h
    simp [matchingStep, h]
  · intro c h
    simp [matchingStep, h]

/-- A concrete schema graph: node `http://ex/st` has two children, each with
URI template "x". -/
def ambGraph : Graph :=
  [ ⟨.iri "http://ex/st", ns_tree ++ "contents", .iri "http://ex/st#a"⟩,
    ⟨.iri "http://ex/st", ns_tree ++ "contents", .iri "http://ex/st#b"⟩,
    ⟨.iri "http://ex/st#a", ns_tree ++ "uriTemplate", .lit "x"⟩,
    ⟨.iri "http://ex/st#b", ns_tree ++ "uriTemplate", .lit "x"⟩ ]

/-- A concrete URI-template matcher for witnesses: the template matches the
slug exactly when it is the literal with that text. -/
def litEqMatcher : Option Term → String → Bool :=
  fun tpl sl => tpl = some (.lit sl)

/-- C6 witness: on `ambGraph`, both children qualify for slug "x" under the
literal-equality matcher, so matchingStep reports the ambiguous-match error. -/
theorem matchingStep_trichotomy_witness :
    stepChoices ambGraph litEqMatcher (.iri "http://ex/st") (some "x") =
        [.iri "http://ex/st#a", .iri "http://ex/st#b"] ∧
    matchingStep ambGraph litEqMatcher (.iri "http://ex/st") (some "x") =
      .error (.uriTemplateMatch (some "x")
        (.ambiguousAgainst ((stepContents ambGraph (.iri "http://ex/st")).map termVal))) :=
  ⟨by decide,
    (matchingStep_trichotomy ambGraph litEqMatcher (.iri "http://ex/st") (some "x")).2.2.1
      (.iri "http://ex/st#a") (.iri "http://ex/st#b") [] (by decide)⟩

/-! ## RemoteShapeTree.getRdfRoot (lib/shape-tree.js lines 267-283) -/

/-- JS `String.split(sep)` on a single-character separator, structurally
recursive so that it evaluates by kernel reduction. -/
def splitSlashAux (sep : Char) : List Char → List Char → List (List Char)
  | [], acc => [acc.reverse]
  | c :: rest, acc =>
    if c = sep then acc.reverse :: splitSlashAux sep rest []
    else splitSlashAux sep rest (c :: acc)

/-- Model of `path.split(/\//)` (line 268). -/
def jsSplitSlash (path : String) : List String :=
  (splitSlashAux '/' path.data []).map String.mk

/-- Number of quads `child rdfs:label "name"` (the code tests this count
against 1, line 277). -/
def labelQuadCount (g : Graph) (child : Term) (name : String) : Nat :=
  (getQuadsSPO g child (ns_rdfs ++ "label") (.lit name)).length

/-- Number of `tree:uriTemplate` quads of a child (tested against 1,
line 280). -/
def templQuadCount (g : Graph) (child : Term) : Nat :=
  (getQuadsSP g child (ns_tree ++ "uriTemplate")).length

/-- The predicate of the `cqz.find(...)` call (lines 274-281): the child
either carries exactly one rdfs:label equal to the current segment, or
carries exactly one uriTemplate - the template itself is never compared with
the segment. -/
def rdfRootPred (g : Graph) (name : String) (q : Triple) : Bool :=
  labelQuadCount g q.o name = 1 || templQuadCount g q.o = 1

/-- One step of the reduce in getRdfRoot: "." keeps the node, otherwise the
first `tree:contents` child satisfying `rdfRootPred` is selected; if none
does, `.find(...)` yields `undefined` and the subsequent `.object` access
throws (modelled as `none`). -/
def getRdfRootStep (g : Graph) (node : Term) (name : String) : Option Term :=
  if name = "." then some node
  else ((getQuadsSP g node (ns_tree ++ "contents")).find? (rdfRootPred g name)).map (·.o)

/-- RemoteShapeTree.getRdfRoot: reduce the '/'-separated path segments from
the schema root node. -/
def getRdfRoot (g : Graph) (urlHref path : String) : Option Term :=
  (jsSplitSlash path).foldlM (getRdfRootStep g) (Term.iri urlHref)

/-- Whether a child declares any rdfs:label. -/
def declaresLabel (g : Graph) (c : Term) : Bool :=
  decide (0 < (getQuadsSP g c (ns_rdfs ++ "label")).length)

/-- Modelled from the spec (§4.2, "Resolve root node"), for comparison with
the source's `getRdfRootStep`: "at each step, among the current node's
declared children, select the one whose label equals the segment, or - if
none declares a label - the one whose URI template the segment matches.
`.` segments are a no-op."  Template matching is the same external-matcher
parameter used by `stepChoices`. -/
def specRdfStep (g : Graph) (matcher : Option Term → String → Bool)
    (node : Term) (name : String) : Option Term :=
  if name = "." then some node
  else
    let children := (getQuadsSP g node (ns_tree ++ "contents")).map (·.o)
    match children.find? (fun c => decide (0 < labelQuadCount g c name)) with
    | some c => some c
    | none =>
      if children.any (declaresLabel g) then none
      else children.find? (fun c => matcher (stepTemplate g c) name)

/-- Modelled from the spec: the whole walk under the spec's selection rule. -/
def specRdfRoot (g : Graph) (matcher : Option Term → String → Bool)
    (urlHref path : String) : Option Term :=
  (jsSplitSlash path).foldlM (specRdfStep g matcher) (Term.iri urlHref)

/-- A schema graph refuting C5: the root's contents hold a dynamically-named
child (declaring `uriTemplate "{x}.ttl"`) first and a statically labelled
child (`rdfs:label "bar"`) second. -/
def walkCexGraph : Graph :=
  [ ⟨.iri "http://ex/st", ns_tree ++ "contents", .iri "http://ex/st#dyn"⟩,
    ⟨.iri "http://ex/st", ns_tree ++ "contents", .iri "http://ex/st#stat"⟩,
    ⟨.iri "http://ex/st#dyn", ns_tree ++ "uriTemplate", .lit "{x}.ttl"⟩,
    ⟨.iri "http://ex/st#stat", ns_rdfs ++ "label", .lit "bar"⟩ ]

/-- C5 counterexample.  For cursor path "bar" on `walkCexGraph`, the claim
(and spec) select the child whose label equals the segment, but the code
returns the templated child: a child that merely declares a URI template is
chosen without the template ever being matched against the segment, even
though a later sibling's label equals the segment. -/
theorem getRdfRoot_spec_walk_cex :
    getRdfRoot walkCexGraph "http://ex/st" "bar" = some (.iri "http://ex/st#dyn") ∧
    specRdfRoot walkCexGraph litEqMatcher "http://ex/st" "bar" =
      some (.iri "http://ex/st#stat") ∧
    getRdfRoot walkCexGraph "http://ex/st" "bar" ≠
      specRdfRoot walkCexGraph litEqMatcher "http://ex/st" "bar" := by
  decide

/-- Splitting view of a successful `List.find?`. -/
theorem find?_eq_some_split {α : Type} (p : α → Bool) :
    ∀ (l : List α) (a : α), l.find? p = some a →
      ∃ pre post, l = pre ++ a :: post ∧ p a = true ∧ ∀ x ∈ pre, p x = false := by
  intro l
  induction l with
  | nil => intro a h; simp at h
  | cons x xs ih =>
    intro a h
    by_cases hx : p x = true
    · rw [List.find?_cons_of_pos _ hx] at h
      obtain rfl : x = a := by injection h
      exact ⟨[], xs, rfl, hx, by simp⟩
    · rw [List.find?_cons_of_neg _ hx] at h
      obtain ⟨pre, post, heq, hpa, hpre⟩ := ih a h
      exact ⟨x :: pre, post, by simp [heq], hpa, by
        intro y hy
        rcases List.mem_cons.mp hy with rfl | hy2
        · exact eq_false_of_ne_true hx
        · exact hpre y hy2⟩

/-- C5 (amended).  getRdfRoot walks the '/'-separated segments of the cursor
path starting at the schema's root node; a "." segment is a no-op, and at
every other segment the walk selects, among the current node's
`tree:contents` children in store order, the FIRST child that either carries
exactly one rdfs:label equal to the segment or declares exactly one
uriTemplate - the URI template is never compared against the segment, and a
template-declaring child earlier in store order wins over a later child
whose label equals the segment. -/
theorem getRdfRoot_first_qualifying (g : Graph) (node : Term) (name : String)
    (v : Term) (hname : name ≠ ".") (h : getRdfRootStep g node name = some v) :
    getRdfRootStep g node "." = some node ∧
    ∃ pre q post,
      getQuadsSP g node (ns_tree ++ "contents") = pre ++ q :: post ∧
      q.o = v ∧ rdfRootPred g name q = true ∧
      ∀ q2 ∈ pre, rdfRootPred g name q2 = false := by
  refine ⟨by simp [getRdfRootStep], ?_⟩
  rw [getRdfRootStep, if_neg hname] at h
  obtain ⟨q, hfind, hqo⟩ := Option.map_eq_some'.mp h
  obtain ⟨pre, post, heq, hpq, hpre⟩ := find?_eq_some_split _ _ _ hfind
  exact ⟨pre, q, post, heq, hqo, hpq, hpre⟩

/-- A graph for the C5 witness: the root has a child with neither label nor
template, then a child labelled "foo". -/
def walkWitGraph : Graph :=
  [ ⟨.iri "http://ex/st", ns_tree ++ "contents", .iri "http://ex/st#plain"⟩,
    ⟨.iri "http://ex/st", ns_tree ++ "contents", .iri "http://ex/st#foo"⟩,
    ⟨.iri "http://ex/st#foo", ns_rdfs ++ "label", .lit "foo"⟩ ]

/-- C5 witness: on `walkWitGraph`, segment "foo" selects the labelled child,
and it is the first qualifying child of the contents list. -/
theorem getRdfRoot_first_qualifying_witness :
    ("foo" ≠ "." ∧
     getRdfRootStep walkWitGraph (.iri "http://ex/st") "foo" =
       some (.iri "http://ex/st#foo")) ∧
    (getRdfRootStep walkWitGraph (.iri "http://ex/st") "." =
       some (.iri "http://ex/st") ∧
     ∃ pre q post,
       getQuadsSP walkWitGraph (.iri "http://ex/st") (ns_tree ++ "contents") =
         pre ++ q :: post ∧
       q.o = .iri "http://ex/st#foo" ∧ rdfRootPred walkWitGraph "foo" q = true ∧
       ∀ q2 ∈ pre, rdfRootPred walkWitGraph "foo" q2 = false) :=
  ⟨⟨by decide, by decide⟩,
    getRdfRoot_first_qualifying walkWitGraph (.iri "http://ex/st") "foo"
      (.iri "http://ex/st#foo") (by decide) (by decide)⟩

/-! ## URL and path primitives

Models of the platform primitives used by the core: WHATWG `new URL(rel,
base)` restricted to http(s) hierarchical URLs without query or fragment (the
only URLs the core builds), and the two Node `Path` helpers the core calls.
-/

/-- Split an absolute href at the authority: "scheme://host/p" becomes
("scheme://host", "/p"). -/
def breakAtAuthority : List Char → Option (List Char × List Char)
  | [] => none
  | ':' :: '/' :: '/' :: rest => some ([], rest)
  | c :: rest => (breakAtAuthority rest).map (fun p => (c :: p.1, p.2))

/-- Origin and path of an absolute href. -/
def urlOriginPath (href : String) : String × String :=
  match breakAtAuthority href.data with
  | none => (href, "")
  | some (scheme, rest) =>
    let host := rest.takeWhile (· ≠ '/')
    let path := rest.dropWhile (· ≠ '/')
    (String.mk (scheme ++ ':' :: '/' :: '/' :: host), String.mk path)

/-- Segments of an absolute path: "/a/b/" gives ["a", "b", ""] (a final ""
records the trailing slash); "" and "/" give [] and [""]. -/
def pathSegs (p : String) : List String :=
  match (splitSlashAux '/' p.data []).map String.mk with
  | [] => []
  | _ :: rest => rest

/-- WHATWG path normalisation of "." and ".." segments. -/
def normSegsAux : List String → List String → List String
  | [], acc => acc.reverse
  | ["."], acc => ("" :: acc).reverse
  | [".."], acc => ("" :: acc.drop 1).reverse
  | "." :: rest, acc => normSegsAux rest acc
  | ".." :: rest, acc => normSegsAux rest (acc.drop 1)
  | s :: rest, acc => normSegsAux rest (s :: acc)

/-- Render segments back to an absolute path. -/
def pathOfSegs (segs : List String) : String :=
  "/" ++ String.intercalate "/" segs

/-- Model of `new URL(rel, base).href` for scheme-relative-free `rel` against
an absolute hierarchical base: empty `rel` returns the base, an absolute-path
`rel` replaces the whole path, otherwise `rel` is resolved against the base's
directory; "." and ".." segments are normalised. -/
def urlResolve (rel baseHref : String) : String :=
  if rel = "" then baseHref
  else
    let (origin, basePath) := urlOriginPath baseHref
    let relSegs := (splitSlashAux '/' rel.data []).map String.mk
    if rel.data.head? = some '/' then
      origin ++ pathOfSegs (normSegsAux (relSegs.drop 1) [])
    else
      origin ++ pathOfSegs (normSegsAux ((pathSegs basePath).dropLast ++ relSegs) [])

/-- Node `Path.join(p, toAdd)` for the slash-free labels the core joins onto
cursor paths: "." is dropped. -/
def pathJoin (p toAdd : String) : String :=
  if p = "." then toAdd else p ++ "/" ++ toAdd

/-- Node `Path.join(toAdd, '/')`: appends a trailing slash. -/
def pathJoinSlash (toAdd : String) : String :=
  if toAdd = "" then "/" else toAdd ++ "/"

/-- Node `Path.relative(p, '')`: the walk from `p` back up to the current
directory - one ".." per real segment of `p` ("." and "" segments count for
nothing), so "." gives "" and "a/b" gives "../..". -/
def pathRelativeUp (p : String) : String :=
  let n := (((splitSlashAux '/' p.data []).map String.mk).filter
    (fun s => s ≠ "." ∧ s ≠ "")).length
  String.intercalate "/" (List.replicate n "..")

/-! ## ManagedContainer constructor (lib/shape-tree.js lines 117-170) -/

/-- The in-memory state of a ManagedContainer relevant to its ShapeTree
binding: the three binding fields (each `none` when the JS field is
`undefined`/`null`), the statement-set, and whether loadOrCreate persisted
the container. -/
structure ManagedContainerState where
  urlHref : String
  graph : Graph
  shapeTreeUrl : Option String
  shapeTreeInstancePath : Option String
  shapeTreeInstanceRoot : Option String
  persisted : Bool
  deriving DecidableEq, Repr

/-- `asUrl` (lines 184-187): zero-or-one lookup of a tree-namespace property,
as a URL string. -/
def asUrl (g : Graph) (urlHref property : String) : Option String :=
  (zeroOrOne g (.iri urlHref) (ns_tree ++ property)).map (fun q => termVal q.o)

/-- `asLiteral` (lines 189-192). -/
def asLiteral (g : Graph) (urlHref property : String) : Option String :=
  (zeroOrOne g (.iri urlHref) (ns_tree ++ property)).map (fun q => termVal q.o)

/-- `parseShapeTreeInstance` (lines 165-169): re-read the three binding
fields from the container's own statements. -/
def parseShapeTreeInstance (mc : ManagedContainerState) : ManagedContainerState :=
  { mc with
    shapeTreeInstanceRoot := asUrl mc.graph mc.urlHref "shapeTreeInstanceRoot"
    shapeTreeInstancePath := asLiteral mc.graph mc.urlHref "shapeTreeInstancePath"
    shapeTreeUrl := asUrl mc.graph mc.urlHref "shapeTreeRoot" }

/-- The three binding statements of `containerText` (lines 151-162), after
the Turtle parse relative to the container's own URL (so the relative
`shapeTreeInstanceRoot` IRI resolves against the container URL). -/
def bindingTriples (urlHref stUrl instancePath : String) : Graph :=
  [ ⟨.iri urlHref, ns_tree ++ "shapeTreeRoot", .iri stUrl⟩,
    ⟨.iri urlHref, ns_tree ++ "shapeTreeInstancePath", .lit instancePath⟩,
    ⟨.iri urlHref, ns_tree ++ "shapeTreeInstanceRoot",
      .iri (urlResolve (pathRelativeUp instancePath) urlHref)⟩ ]

/-- The ManagedContainer constructor on the explicit-arguments path (title a
string, lines 122-129) followed by its loadOrCreate (lines 132-149), as a
function of the graph the super constructor loaded (`existingGraph`) and of
whether storage reported a fresh directory (`newDir`).

`stUrl = none` models a `shapeTreeUrl` argument that is not a URL instance
(line 123 throws).  Source line 125 reads `this,shapeTreeUrl = shapeTreeUrl;`
- a comma expression that assigns the parameter to itself - so the
`shapeTreeUrl` FIELD is never assigned on this path; lines 126-128 then set
the instance-path and instance-root fields, the latter resolved against the
ShapeTree URL.  On a fresh directory loadOrCreate merges the parsed
containerText statements and persists; on an existing one it re-parses the
fields from the loaded graph. -/
def managedContainerNew (urlHref : String) (existingGraph : Graph)
    (newDir : Bool) (stUrl : Option String) (instancePath : String) :
    Except String ManagedContainerState :=
  match stUrl with
  | none => .error "shapeTreeUrl must be an instance of URL"
  | some st =>
    let base : ManagedContainerState :=
      { urlHref := urlHref
        graph := existingGraph
        shapeTreeUrl := none
        shapeTreeInstancePath := some instancePath
        shapeTreeInstanceRoot := some (urlResolve (pathRelativeUp instancePath) st)
        persisted := false }
    if newDir then
      .ok { base with
            graph := (bindingTriples urlHref st instancePath).foldl addQuad base.graph
            persisted := true }
    else
      .ok (parseShapeTreeInstance base)

/-- The state the constructor actually computes at the C7 failing input. -/
def plantedMC : ManagedContainerState :=
  { urlHref := "http://ex/data/inst/"
    graph := bindingTriples "http://ex/data/inst/" "http://ex/st" "."
    shapeTreeUrl := none
    shapeTreeInstancePath := some "."
    shapeTreeInstanceRoot := some "http://ex/st"
    persisted := true }

/-- C7 (code evaluated at the failing input).  Planting a fresh
ManagedContainer at http://ex/data/inst/ for ShapeTree http://ex/st with
instance path "." persists all three binding statements into the graph, and
sets the instance-path and instance-root fields - but the `shapeTreeUrl`
field itself is left unset (undefined) because of the comma expression at
line 125, so the three binding fields are NOT all set once ready resolves on
the newly-created path. -/
theorem managedContainer_shapeTreeUrl_unset :
    managedContainerNew "http://ex/data/inst/" [] true (some "http://ex/st") "." =
      .ok plantedMC ∧
    plantedMC.shapeTreeUrl = none ∧
    (⟨.iri "http://ex/data/inst/", ns_tree ++ "shapeTreeRoot", .iri "http://ex/st"⟩ : Triple)
      ∈ plantedMC.graph ∧
    plantedMC.shapeTreeInstancePath = some "." ∧
    plantedMC.shapeTreeInstanceRoot = some "http://ex/st" ∧
    plantedMC.persisted = true := by
  decide

/-! ## Dispatcher not-found guards (lib/shape-tree-fetch.js) -/

/-- The storage capability as far as the guards need it: which hrefs have an
`rstat`. -/
structure StorageState where
  present : List String
  deriving DecidableEq, Repr

/-- `rstatOrNull` (lines 242-248): the stat, or null when storage throws
not-found. -/
def rstatOrNull (st : StorageState) (href : String) : Option Unit :=
  if href ∈ st.present then some () else none

/-- A JS value as seen by a truthiness test: an awaited rstat-or-null, or a
pending promise for one (a promise object is always truthy). -/
inductive JsVal where
  | statV (v : Option Unit)
  | promiseV (v : Option Unit)
  deriving DecidableEq, Repr

def jsTruthy : JsVal → Bool
  | .statV v => v.isSome
  | .promiseV _ => true

/-- The not-found error (lines 232-238): status 404. -/
inductive FetchErr where
  | notFound (href method : String) (status : Nat)
  deriving DecidableEq, Repr

/-- `throwIfNotFound` (lines 232-238). -/
def throwIfNotFound (rstat : JsVal) (href method : String) : Except FetchErr Unit :=
  if jsTruthy rstat then .ok () else .error (.notFound href method 404)

/-- The POST branch's guard (line 73): `rstat` was awaited at line 67, so the
test sees the stat-or-null itself. -/
def postNotFoundGuard (st : StorageState) (href : String) : Except FetchErr Unit :=
  throwIfNotFound (.statV (rstatOrNull st href)) href "POST"

/-- The effective parent of a PUT target (line 150): ".." for a container
target, "." for a resource target. -/
def putParentHref (href : String) : String :=
  urlResolve (if jsEndsWith href "/" then ".." else ".") href

/-- The PUT branch's guard (lines 150-152): `const pstat =
rstatOrNull(parentUrl);` is NOT awaited, so `throwIfNotFound` receives the
pending promise itself. -/
def putNotFoundGuard (st : StorageState) (href : String) : Except FetchErr Unit :=
  throwIfNotFound (.promiseV (rstatOrNull st (putParentHref href))) href "PUT"

/-- C8 (code evaluated at the failing input).  Against empty storage, a POST
to a missing container fails with the 404 not-found error as the claim says;
but a PUT whose effective parent is missing sails through the guard, because
the un-awaited promise handed to throwIfNotFound is truthy - the very same
check applied to the awaited value would have produced the 404. -/
theorem put_guard_skips_not_found :
    postNotFoundGuard ⟨[]⟩ "http://ex/c/" =
      .error (.notFound "http://ex/c/" "POST" 404) ∧
    putParentHref "http://ex/a/b" = "http://ex/a/" ∧
    rstatOrNull ⟨[]⟩ "http://ex/a/" = none ∧
    putNotFoundGuard ⟨[]⟩ "http://ex/a/b" = .ok () ∧
    throwIfNotFound (.statV (rstatOrNull ⟨[]⟩ (putParentHref "http://ex/a/b")))
        "http://ex/a/b" "PUT" =
      .error (.notFound "http://ex/a/b" "PUT" 404) := by
  decide

/-! ## RemoteShapeTree.instantiateStatic (lib/shape-tree.js lines 332-357)

The statically-declared structure the recursion reads from the schema graph
is represented as a tree: a node is an RDF subject, its `label` is the value
of its zero-or-one `rdfs:label` statement (line 340; unlabelled children are
skipped, line 341-342), and its `children` are the objects of its
`tree:contents` arcs in store order (line 338).

The filesystem/ecosystem effects are a state: the set of container hrefs
present in storage, plus the in-memory statement-set of each Container
object (keyed by href; each href is opened once per instantiation).  The
only throw sites in the algorithm are the awaited container creations
(`new ManagedContainer(...).ready`, line 333-335: `ensureContainer` or the
binding write may fail), so failures are injected by an oracle `fails`
giving, per container href, the message of the (unmanaged, filesystem-level)
error thrown while creating it.  The `Promise.all` of line 338-347 is
modelled sequentially: the first failing child (in contents order) aborts
the loop, which is the claim-relevant behaviour; `parent.write()` at
line 348 is fire-and-forget and does not affect the in-memory state.
In the catch (lines 350-356) `ret.remove()` is modelled as always
succeeding, matching the claim's scope.
-/

/-- A node of the statically-declared schema structure. -/
inductive STree where
  | node (label : Option String) (children : List STree)
  deriving Repr

/-- Storage-and-memory state during static instantiation. -/
structure InstFS where
  containers : List String
  graphs : List (String × Graph)
  deriving DecidableEq, Repr

/-- Association lookup of a container's in-memory graph. -/
def lookupGraph : List (String × Graph) → String → Graph
  | [], _ => []
  | (k, v) :: rest, href => if k = href then v else lookupGraph rest href

/-- Association update of a container's in-memory graph. -/
def setGraphA : List (String × Graph) → String → Graph → List (String × Graph)
  | [], href, g => [(href, g)]
  | (k, v) :: rest, href, g =>
    if k = href then (k, g) :: rest else (k, v) :: setGraphA rest href g

def graphOf (st : InstFS) (href : String) : Graph :=
  lookupGraph st.graphs href

def setGraph (st : InstFS) (href : String) (g : Graph) : InstFS :=
  { st with graphs := setGraphA st.graphs href g }

/-- `new ManagedContainer(rootUrl, 'index for nested resource ...', this.url,
pathWithinShapeTree).ready` on the success path: `ensureContainer` creates
the backing container if absent, and the in-memory graph of the fresh
Container object carries the ShapeTree binding statements. -/
def createContainer (st : InstFS) (rootUrl stUrl path : String) : InstFS :=
  { containers :=
      if rootUrl ∈ st.containers then st.containers else st.containers ++ [rootUrl]
    graphs := setGraphA st.graphs rootUrl
      ((bindingTriples rootUrl stUrl path).foldl addQuad []) }

/-- `parent.addMember(ret.url.href, stepNode.url)` (line 337) on the state. -/
def addMemberFS (st : InstFS) (parentUrl childUrl : String) : InstFS :=
  setGraph st parentUrl (addQuad (graphOf st parentUrl) (containsTriple parentUrl childUrl))

/-- The catch block's compensation (lines 351-352): `await ret.remove()`
deletes the backing container at rootUrl, and
`parent.removeMember(ret.url.href, ...)` deletes the membership triple from
the parent's statement-set. -/
def removeRollback (st : InstFS) (rootUrl parentUrl : String) : InstFS :=
  let st1 : InstFS := { st with containers := st.containers.erase rootUrl }
  setGraph st1 parentUrl
    (removeQuad (graphOf st1 parentUrl) (containsTriple parentUrl rootUrl))

/-- Errors flowing through the recursion: `Errors.ShapeTreeStructureError`
(a recognised / managed domain error, line 355), other subclasses of
`Errors.ManagedError`, and unmanaged errors (e.g. filesystem failures). -/
inductive InstErr where
  | structureError (rootHref msg : String)
  | otherManaged (msg : String)
  | unmanaged (msg : String)
  deriving DecidableEq, Repr

/-- `e instanceof Errors.ManagedError` (line 353). -/
def isManagedErr : InstErr → Bool
  | .unmanaged _ => false
  | _ => true

/-- `e.message`. -/
def instErrMsg : InstErr → String
  | .structureError _ m => m
  | .otherManaged m => m
  | .unmanaged m => m

/-- The re-raise of lines 353-355: a managed error passes unchanged, anything
else is wrapped into a structure error naming the root and the original
message. -/
def wrapInstErr (rootUrl : String) (e : InstErr) : InstErr :=
  if isManagedErr e then e else .structureError rootUrl (instErrMsg e)

mutual

/-- RemoteShapeTree.instantiateStatic (lines 332-357): create the managed
container at rootUrl (throwing the oracle's unmanaged error when storage
fails there, before the try block); then, inside the try, register rootUrl
in the parent's statement-set and recurse into each labelled child with the
fresh container as parent; on any failure inside the try, remove the
just-created container, undo the membership registration, and re-raise,
wrapping unmanaged causes into a structure error naming rootUrl. -/
def instantiateStatic (fails : String → Option String) (stUrl : String) :
    STree → String → String → String → InstFS → Except (InstErr × InstFS) InstFS
  | .node _ cs, rootUrl, path, parentUrl, st =>
    match fails rootUrl with
    | some msg => .error (.unmanaged msg, st)
    | none =>
      let st1 := createContainer st rootUrl stUrl path
      let st2 := addMemberFS st1 parentUrl rootUrl
      match instantiateChildren fails stUrl cs rootUrl path st2 with
      | .ok st3 => .ok st3
      | .error (e, st3) =>
        .error (wrapInstErr rootUrl e, removeRollback st3 rootUrl parentUrl)

/-- The loop of lines 338-347 over the step node's contents: unlabelled
children are skipped; a labelled child `toAdd` is instantiated at
`new URL(Path.join(toAdd, '/'), rootUrl)` with cursor path
`Path.join(pathWithinShapeTree, toAdd)` and the current container as parent. -/
def instantiateChildren (fails : String → Option String) (stUrl : String) :
    List STree → String → String → InstFS → Except (InstErr × InstFS) InstFS
  | [], _, _, st => .ok st
  | .node none _ :: rest, rootUrl, path, st =>
    instantiateChildren fails stUrl rest rootUrl path st
  | .node (some lbl) cs :: rest, rootUrl, path, st =>
    match instantiateStatic fails stUrl (.node (some lbl) cs)
        (urlResolve (pathJoinSlash lbl) rootUrl) (pathJoin path lbl) rootUrl st with
    | .ok st2 => instantiateChildren fails stUrl rest rootUrl path st2
    | .error es => .error es

end

mutual

/-- The container hrefs the instantiation of a (sub)tree creates: its root
and, recursively, those of its labelled children. -/
def subtreeRoots : STree → String → List String
  | .node _ cs, rootUrl => rootUrl :: childrenRoots cs rootUrl

def childrenRoots : List STree → String → List String
  | [], _ => []
  | .node none _ :: rest, r => childrenRoots rest r
  | .node (some lbl) cs :: rest, r =>
    subtreeRoots (.node (some lbl) cs) (urlResolve (pathJoinSlash lbl) r) ++
      childrenRoots rest r

end

/-- The state carried by a result, successful or not. -/
def resStateOf : Except (InstErr × InstFS) InstFS → InstFS
  | .ok s => s
  | .error (_, s) => s

theorem resStateOf_ok (s : InstFS) : resStateOf (.ok s) = s := rfl

theorem resStateOf_error (e : InstErr) (s : InstFS) : resStateOf (.error (e, s)) = s := rfl

theorem lookupGraph_setGraphA_self (gs : List (String × Graph)) (href : String) (g : Graph) :
    lookupGraph (setGraphA gs href g) href = g := by
  induction gs with
  | nil => simp [setGraphA, lookupGraph]
  | cons kv rest ih =>
    obtain ⟨k, v⟩ := kv
    by_cases hk : k = href
    · simp [setGraphA, lookupGraph, hk]
    · simp [setGraphA, lookupGraph, hk, ih]

theorem mem_createContainer_containers (st : InstFS) (rootUrl stUrl path u : String)
    (hu : u ∈ st.containers) : u ∈ (createContainer st rootUrl stUrl path).containers := by
  by_cases hr : rootUrl ∈ st.containers <;> simp [createContainer, hr, hu]

theorem rootUrl_mem_createContainer (st : InstFS) (rootUrl stUrl path : String) :
    rootUrl ∈ (createContainer st rootUrl stUrl path).containers := by
  by_cases hr : rootUrl ∈ st.containers <;> simp [createContainer, hr]

theorem createContainer_nodup (st : InstFS) (rootUrl stUrl path : String)
    (h : st.containers.Nodup) : (createContainer st rootUrl stUrl path).containers.Nodup := by
  by_cases hr : rootUrl ∈ st.containers
  · simpa [createContainer, hr] using h
  · simp only [createContainer, hr, if_false]
    rw [List.nodup_append]
    refine ⟨h, List.nodup_singleton _, ?_⟩
    intro a ha hb
    simp only [List.mem_singleton] at hb
    subst hb
    exact hr ha

theorem addMemberFS_containers (st : InstFS) (parentUrl childUrl : String) :
    (addMemberFS st parentUrl childUrl).containers = st.containers := rfl

theorem removeRollback_containers (st : InstFS) (rootUrl parentUrl : String) :
    (removeRollback st rootUrl parentUrl).containers = st.containers.erase rootUrl := rfl

theorem graphOf_removeRollback_parent (st : InstFS) (rootUrl parentUrl : String) :
    graphOf (removeRollback st rootUrl parentUrl) parentUrl =
      removeQuad (graphOf st parentUrl) (containsTriple parentUrl rootUrl) := by
  simp [removeRollback, setGraph, graphOf, lookupGraph_setGraphA_self]

theorem not_mem_removeQuad (g : Graph) (t : Triple) : t ∉ removeQuad g t := by
  simp [removeQuad, List.mem_filter]

theorem isManagedErr_wrapInstErr (rootUrl : String) (e : InstErr) :
    isManagedErr (wrapInstErr rootUrl e) = true := by
  cases e <;> simp [wrapInstErr, isManagedErr]

theorem childrenRoots_append (a b : List STree) (r : String) :
    childrenRoots (a ++ b) r = childrenRoots a r ++ childrenRoots b r := by
  induction a with
  | nil => simp [childrenRoots]
  | cons c rest ih =>
    cases c with
    | node lbl cs =>
      cases lbl with
      | none => simpa [childrenRoots] using ih
      | some l => simp [childrenRoots, ih]

mutual

theorem instStatic_nodup (fails : String → Option String) (stUrl : String) (t : STree)
    (rootUrl path parentUrl : String) (st : InstFS) (h : st.containers.Nodup) :
    (resStateOf (instantiateStatic fails stUrl t rootUrl path parentUrl st)).containers.Nodup := by
  cases t with
  | node lbl cs =>
    cases hf : fails rootUrl with
    | some msg => simp [instantiateStatic, hf, resStateOf, h]
    | none =>
      have h2 : (addMemberFS (createContainer st rootUrl stUrl path) parentUrl rootUrl).containers.Nodup := by
        rw [addMemberFS_containers]
        exact createContainer_nodup st rootUrl stUrl path h
      have hk := instChildren_nodup fails stUrl cs rootUrl path
        (addMemberFS (createContainer st rootUrl stUrl path) parentUrl rootUrl) h2
      cases hkk : instantiateChildren fails stUrl cs rootUrl path
          (addMemberFS (createContainer st rootUrl stUrl path) parentUrl rootUrl) with
      | ok st3 =>
        rw [hkk, resStateOf_ok] at hk
        simp [instantiateStatic, hf, hkk, resStateOf, hk]
      | error es =>
        obtain ⟨e, st3⟩ := es
        rw [hkk, resStateOf_error] at hk
        simp only [instantiateStatic, hf, hkk, resStateOf, removeRollback_containers]
        exact hk.erase rootUrl

theorem instChildren_nodup (fails : String → Option String) (stUrl : String)
    (cs : List STree) (rootUrl path : String) (st : InstFS) (h : st.containers.Nodup) :
    (resStateOf (instantiateChildren fails stUrl cs rootUrl path st)).containers.Nodup := by
  cases cs with
  | nil => simpa [instantiateChildren, resStateOf] using h
  | cons c rest =>
    cases c with
    | node lbl cs2 =>
      cases lbl with
      | none =>
        simpa [instantiateChildren] using
          instChildren_nodup fails stUrl rest rootUrl path st h
      | some l =>
        have hc := instStatic_nodup fails stUrl (.node (some l) cs2)
          (urlResolve (pathJoinSlash l) rootUrl) (pathJoin path l) rootUrl st h
        cases hck : instantiateStatic fails stUrl (.node (some l) cs2)
            (urlResolve (pathJoinSlash l) rootUrl) (pathJoin path l) rootUrl st with
        | ok st2 =>
          rw [hck, resStateOf_ok] at hc
          simpa [instantiateChildren, hck] using
            instChildren_nodup fails stUrl rest rootUrl path st2 hc
        | error es =>
          obtain ⟨e, st3⟩ := es
          rw [hck, resStateOf_error] at hc
          simpa [instantiateChildren, hck, resStateOf] using hc

end

mutual

theorem instStatic_preserve (fails : String → Option String) (stUrl : String) (t : STree)
    (rootUrl path parentUrl : String) (st : InstFS) (u : String)
    (hu : u ∈ st.containers) (hnot : u ∉ subtreeRoots t rootUrl) :
    u ∈ (resStateOf (instantiateStatic fails stUrl t rootUrl path parentUrl st)).containers := by
  cases t with
  | node lbl cs =>
    have hne : u ≠ rootUrl := by
      intro hc; exact hnot (by simp [subtreeRoots, hc])
    have hnotk : u ∉ childrenRoots cs rootUrl := by
      intro hc; exact hnot (by simp [subtreeRoots, hc])
    cases hf : fails rootUrl with
    | some msg => simpa [instantiateStatic, hf, resStateOf] using hu
    | none =>
      have hu2 : u ∈ (addMemberFS (createContainer st rootUrl stUrl path) parentUrl rootUrl).containers := by
        rw [addMemberFS_containers]
        exact mem_createContainer_containers st rootUrl stUrl path u hu
      have hk := instChildren_preserve fails stUrl cs rootUrl path
        (addMemberFS (createContainer st rootUrl stUrl path) parentUrl rootUrl) u hu2 hnotk
      cases hkk : instantiateChildren fails stUrl cs rootUrl path
          (addMemberFS (createContainer st rootUrl stUrl path) parentUrl rootUrl) with
      | ok st3 =>
        rw [hkk, resStateOf_ok] at hk
        simpa [instantiateStatic, hf, hkk, resStateOf] using hk
      | error es =>
        obtain ⟨e, st3⟩ := es
        rw [hkk, resStateOf_error] at hk
        simp only [instantiateStatic, hf, hkk, resStateOf, removeRollback_containers]
        exact List.mem_erase_of_ne hne |>.mpr hk

theorem instChildren_preserve (fails : String → Option String) (stUrl : String)
    (cs : List STree) (rootUrl path : String) (st : InstFS) (u : String)
    (hu : u ∈ st.containers) (hnot : u ∉ childrenRoots cs rootUrl) :
    u ∈ (resStateOf (instantiateChildren fails stUrl cs rootUrl path st)).containers := by
  cases cs with
  | nil => simpa [instantiateChildren, resStateOf] using hu
  | cons c rest =>
    cases c with
    | node lbl cs2 =>
      cases lbl with
      | none =>
        have hnot2 : u ∉ childrenRoots rest rootUrl := by
          intro hc; exact hnot (by simp [childrenRoots, hc])
        simpa [instantiateChildren] using
          instChildren_preserve fails stUrl rest rootUrl path st u hu hnot2
      | some l =>
        have hnotc : u ∉ subtreeRoots (.node (some l) cs2) (urlResolve (pathJoinSlash l) rootUrl) := by
          intro hc; exact hnot (by simp [childrenRoots, hc])
        have hnot2 : u ∉ childrenRoots rest rootUrl := by
          intro hc; exact hnot (by simp [childrenRoots, hc])
        have hc := instStatic_preserve fails stUrl (.node (some l) cs2)
          (urlResolve (pathJoinSlash l) rootUrl) (pathJoin path l) rootUrl st u hu hnotc
        cases hck : instantiateStatic fails stUrl (.node (some l) cs2)
            (urlResolve (pathJoinSlash l) rootUrl) (pathJoin path l) rootUrl st with
        | ok st2 =>
          rw [hck, resStateOf_ok] at hc
          simpa [instantiateChildren, hck] using
            instChildren_preserve fails stUrl rest rootUrl path st2 u hc hnot2
        | error es =>
          obtain ⟨e, st3⟩ := es
          rw [hck, resStateOf_error] at hc
          simpa [instantiateChildren, hck, resStateOf] using hc

end

mutual

theorem instStatic_ok (fails : String → Option String) (stUrl : String) (t : STree)
    (rootUrl path parentUrl : String) (st : InstFS)
    (hok : ∀ u ∈ subtreeRoots t rootUrl, fails u = none) :
    ∃ st2, instantiateStatic fails stUrl t rootUrl path parentUrl st = .ok st2 ∧
      (∀ u ∈ st.containers, u ∈ st2.containers) ∧
      (∀ u ∈ subtreeRoots t rootUrl, u ∈ st2.containers) := by
  cases t with
  | node lbl cs =>
    have hroot : fails rootUrl = none := hok rootUrl (by simp [subtreeRoots])
    have hok2 : ∀ u ∈ childrenRoots cs rootUrl, fails u = none := by
      intro u hu; exact hok u (by simp [subtreeRoots, hu])
    obtain ⟨stK, hstK, hmono, hcompl⟩ := instChildren_ok fails stUrl cs rootUrl path
      (addMemberFS (createContainer st rootUrl stUrl path) parentUrl rootUrl) hok2
    refine ⟨stK, ?_, ?_, ?_⟩
    · simp [instantiateStatic, hroot, hstK]
    · intro u hu
      exact hmono u (by
        rw [addMemberFS_containers]
        exact mem_createContainer_containers st rootUrl stUrl path u hu)
    · intro u hu
      rw [subtreeRoots] at hu
      rcases List.mem_cons.mp hu with hequ | hu2
      · subst hequ
        exact hmono u (by
          rw [addMemberFS_containers]
          exact rootUrl_mem_createContainer st u stUrl path)
      · exact hcompl u hu2

theorem instChildren_ok (fails : String → Option String) (stUrl : String)
    (cs : List STree) (rootUrl path : String) (st : InstFS)
    (hok : ∀ u ∈ childrenRoots cs rootUrl, fails u = none) :
    ∃ st2, instantiateChildren fails stUrl cs rootUrl path st = .ok st2 ∧
      (∀ u ∈ st.containers, u ∈ st2.containers) ∧
      (∀ u ∈ childrenRoots cs rootUrl, u ∈ st2.containers) := by
  cases cs with
  | nil => exact ⟨st, by simp [instantiateChildren], fun u hu => hu, by simp [childrenRoots]⟩
  | cons c rest =>
    cases c with
    | node lbl cs2 =>
      cases lbl with
      | none =>
        have hok2 : ∀ u ∈ childrenRoots rest rootUrl, fails u = none := by
          intro u hu; exact hok u (by simp [childrenRoots, hu])
        obtain ⟨st2, hst2, hmono, hcompl⟩ :=
          instChildren_ok fails stUrl rest rootUrl path st hok2
        exact ⟨st2, by simpa [instantiateChildren] using hst2, hmono, by
          intro u hu
          rw [childrenRoots] at hu
          exact hcompl u hu⟩
      | some l =>
        have hokc : ∀ u ∈ subtreeRoots (.node (some l) cs2) (urlResolve (pathJoinSlash l) rootUrl),
            fails u = none := by
          intro u hu; exact hok u (by simp [childrenRoots, hu])
        have hok2 : ∀ u ∈ childrenRoots rest rootUrl, fails u = none := by
          intro u hu; exact hok u (by simp [childrenRoots, hu])
        obtain ⟨stC, hstC, hmonoC, hcomplC⟩ := instStatic_ok fails stUrl (.node (some l) cs2)
          (urlResolve (pathJoinSlash l) rootUrl) (pathJoin path l) rootUrl st hokc
        obtain ⟨st2, hst2, hmono2, hcompl2⟩ :=
          instChildren_ok fails stUrl rest rootUrl path stC hok2
        refine ⟨st2, ?_, ?_, ?_⟩
        · simp [instantiateChildren, hstC, hst2]
        · intro u hu; exact hmono2 u (hmonoC u hu)
        · intro u hu
          rw [childrenRoots] at hu
          rcases List.mem_append.mp hu with hu1 | hu2
          · exact hmono2 u (hcomplC u hu1)
          · exact hcompl2 u hu2

end

/-- When every container of the `pre` siblings' subtrees is creatable but the
creation of the next (labelled) sibling's root container throws, the
children loop fails with that sibling's unmanaged creation error, and the
state still holds everything created so far: the prior state's containers
and every container of the earlier siblings' subtrees. -/
theorem instChildren_fail_at (fails : String → Option String) (stUrl : String)
    (pre : List STree) (lblF : String) (csF post : List STree)
    (rootUrl path : String) (st : InstFS) (msg : String)
    (hpre : ∀ u ∈ childrenRoots pre rootUrl, fails u = none)
    (hfail : fails (urlResolve (pathJoinSlash lblF) rootUrl) = some msg) :
    ∃ stp, instantiateChildren fails stUrl (pre ++ .node (some lblF) csF :: post)
        rootUrl path st = .error (.unmanaged msg, stp) ∧
      (∀ u ∈ st.containers, u ∈ stp.containers) ∧
      (∀ u ∈ childrenRoots pre rootUrl, u ∈ stp.containers) := by
  induction pre generalizing st with
  | nil =>
    refine ⟨st, ?_, fun u hu => hu, by simp [childrenRoots]⟩
    simp [instantiateChildren, instantiateStatic, hfail]
  | cons c rest ih =>
    cases c with
    | node lbl cs2 =>
      cases lbl with
      | none =>
        have hpre2 : ∀ u ∈ childrenRoots rest rootUrl, fails u = none := by
          intro u hu; exact hpre u (by simp [childrenRoots, hu])
        obtain ⟨stp, hstp, hmono, hcompl⟩ := ih st hpre2
        exact ⟨stp, by simpa [instantiateChildren] using hstp, hmono, by
          intro u hu
          rw [childrenRoots] at hu
          exact hcompl u hu⟩
      | some l =>
        have hokc : ∀ u ∈ subtreeRoots (.node (some l) cs2) (urlResolve (pathJoinSlash l) rootUrl),
            fails u = none := by
          intro u hu; exact hpre u (by simp [childrenRoots, hu])
        have hpre2 : ∀ u ∈ childrenRoots rest rootUrl, fails u = none := by
          intro u hu; exact hpre u (by simp [childrenRoots, hu])
        obtain ⟨stC, hstC, hmonoC, hcomplC⟩ := instStatic_ok fails stUrl (.node (some l) cs2)
          (urlResolve (pathJoinSlash l) rootUrl) (pathJoin path l) rootUrl st hokc
        obtain ⟨stp, hstp, hmono2, hcompl2⟩ := ih stC hpre2
        refine ⟨stp, ?_, ?_, ?_⟩
        · simp [instantiateChildren, hstC, hstp]
        · intro u hu; exact hmono2 u (hmonoC u hu)
        · intro u hu
          rw [childrenRoots] at hu
          rcases List.mem_append.mp hu with hu1 | hu2
          · exact hmono2 u (hcomplC u hu1)
          · exact hcompl2 u hu2

/-- C1.  Take any call `instantiateStatic(stepNode, rootUrl,
pathWithinShapeTree, parent)` whose own root container is creatable
(`fails rootUrl = none`, so any failure arises inside the recursion of the
try block), starting from a duplicate-free store in which the subtree's
container identifiers are fresh.  If the call fails, then: the container it
created at rootUrl has been removed; rootUrl's membership triple is gone
from the parent's statement-set; the re-raised error is a recognised
(managed) domain error; every pre-existing container outside the
instantiated subtree is left intact; and whenever the failure is pinned down
to the creation of the labelled child after earlier siblings `pre` (whose
subtrees are all creatable), the error is precisely the structure error
naming rootUrl and the original message, and the containers created for
those earlier siblings are all still present. -/
theorem instantiateStatic_rollback (fails : String → Option String) (stUrl : String)
    (lbl : Option String) (cs : List STree) (rootUrl path parentUrl : String)
    (st : InstFS) (e : InstErr) (stErr : InstFS)
    (hroot : fails rootUrl = none)
    (hnodupC : st.containers.Nodup)
    (hfresh : (subtreeRoots (.node lbl cs) rootUrl).Nodup)
    (hres : instantiateStatic fails stUrl (.node lbl cs) rootUrl path parentUrl st =
      .error (e, stErr)) :
    rootUrl ∉ stErr.containers ∧
    containsTriple parentUrl rootUrl ∉ graphOf stErr parentUrl ∧
    isManagedErr e = true ∧
    (∀ u ∈ st.containers, u ∉ subtreeRoots (.node lbl cs) rootUrl → u ∈ stErr.containers) ∧
    (∀ pre lblF csF post msg,
      cs = pre ++ .node (some lblF) csF :: post →
      (∀ u ∈ childrenRoots pre rootUrl, fails u = none) →
      fails (urlResolve (pathJoinSlash lblF) rootUrl) = some msg →
      e = .structureError rootUrl msg ∧
      ∀ u ∈ childrenRoots pre rootUrl, u ∈ stErr.containers) := by
  have hnodup2 : (addMemberFS (createContainer st rootUrl stUrl path) parentUrl rootUrl).containers.Nodup := by
    rw [addMemberFS_containers]
    exact createContainer_nodup st rootUrl stUrl path hnodupC
  cases hkk : instantiateChildren fails stUrl cs rootUrl path
      (addMemberFS (createContainer st rootUrl stUrl path) parentUrl rootUrl) with
  | ok st3 =>
    rw [instantiateStatic] at hres
    simp [hroot, hkk] at hres
  | error es =>
    obtain ⟨e0, st3⟩ := es
    rw [instantiateStatic] at hres
    simp only [hroot, hkk, Except.error.injEq, Prod.mk.injEq] at hres
    obtain ⟨he, hst⟩ := hres
    have hnodup3 : st3.containers.Nodup := by
      have := instChildren_nodup fails stUrl cs rootUrl path
        (addMemberFS (createContainer st rootUrl stUrl path) parentUrl rootUrl) hnodup2
      rwa [hkk, resStateOf_error] at this
    have hrootNotKids : rootUrl ∉ childrenRoots cs rootUrl := by
      rw [subtreeRoots] at hfresh
      exact (List.nodup_cons.mp hfresh).1
    refine ⟨?_, ?_, ?_, ?_, ?_⟩
    · rw [← hst, removeRollback_containers]
      intro hc
      exact ((List.Nodup.mem_erase_iff hnodup3).mp hc).1 rfl
    · rw [← hst, graphOf_removeRollback_parent]
      exact not_mem_removeQuad _ _
    · rw [← he]
      exact isManagedErr_wrapInstErr rootUrl e0
    · intro u hu hnot
      have hne : u ≠ rootUrl := by
        intro hc; exact hnot (by simp [subtreeRoots, hc])
      have hnotk : u ∉ childrenRoots cs rootUrl := by
        intro hc; exact hnot (by simp [subtreeRoots, hc])
      have hu2 := instChildren_preserve fails stUrl cs rootUrl path
        (addMemberFS (createContainer st rootUrl stUrl path) parentUrl rootUrl) u
        (by rw [addMemberFS_containers]
            exact mem_createContainer_containers st rootUrl stUrl path u hu) hnotk
      rw [hkk, resStateOf_error] at hu2
      rw [← hst, removeRollback_containers]
      exact (List.mem_erase_of_ne hne).mpr hu2
    · intro pre lblF csF post msg hcs hpreOK hfailF
      subst hcs
      obtain ⟨stp, hstp, hmono, hcompl⟩ := instChildren_fail_at fails stUrl pre lblF csF post
        rootUrl path (addMemberFS (createContainer st rootUrl stUrl path) parentUrl rootUrl)
        msg hpreOK hfailF
      rw [hstp] at hkk
      simp only [Except.error.injEq, Prod.mk.injEq] at hkk
      obtain ⟨he0, hst3⟩ := hkk
      constructor
      · rw [← he, ← he0]
        simp [wrapInstErr, isManagedErr, instErrMsg]
      · intro u hu
        have huK : u ∈ childrenRoots (pre ++ .node (some lblF) csF :: post) rootUrl := by
          rw [childrenRoots_append]
          exact List.mem_append.mpr (Or.inl hu)
        have hne : u ≠ rootUrl := by
          intro hc; subst hc; exact hrootNotKids huK
        have hu3 : u ∈ st3.containers := hst3 ▸ hcompl u hu
        rw [← hst, removeRollback_containers]
        exact (List.mem_erase_of_ne hne).mpr hu3

/-- The concrete C1 scenario: plant a schema with two labelled children "a"
and "b" at http://ex/data/x/ under parent http://ex/data/; storage initially
holds only the parent; creating the container for child "b" throws a
filesystem error. -/
def failsW : String → Option String :=
  fun u => if u = "http://ex/data/x/b/" then some "disk full" else none

def treeW : STree := .node none [.node (some "a") [], .node (some "b") []]

def stW : InstFS := ⟨["http://ex/data/"], [("http://ex/data/", [])]⟩

def instW : Except (InstErr × InstFS) InstFS :=
  instantiateStatic failsW "http://ex/st" treeW "http://ex/data/x/" "." "http://ex/data/" stW

def stErrW : InstFS := resStateOf instW

/-- C1 witness: in the concrete scenario the call fails with the structure
error naming http://ex/data/x/ and the original message, and the rollback
theorem applies: the root container is gone, its membership triple is gone
from the parent's statement-set, the error is managed, the pre-existing
parent container survives, and the earlier sibling "a"'s container is still
present. -/
theorem instantiateStatic_rollback_witness :
    (failsW "http://ex/data/x/" = none ∧
     stW.containers.Nodup ∧
     (subtreeRoots treeW "http://ex/data/x/").Nodup ∧
     instW = .error (.structureError "http://ex/data/x/" "disk full", stErrW) ∧
     "http://ex/data/x/a/" ∈ stErrW.containers ∧
     graphOf stErrW "http://ex/data/" = []) ∧
    ("http://ex/data/x/" ∉ stErrW.containers ∧
     containsTriple "http://ex/data/" "http://ex/data/x/" ∉ graphOf stErrW "http://ex/data/" ∧
     isManagedErr (.structureError "http://ex/data/x/" "disk full") = true ∧
     (∀ u ∈ stW.containers,
        u ∉ subtreeRoots (.node none [.node (some "a") [], .node (some "b") []])
          "http://ex/data/x/" → u ∈ stErrW.containers) ∧
     (∀ pre lblF csF post msg,
        [STree.node (some "a") [], STree.node (some "b") []] =
          pre ++ .node (some lblF) csF :: post →
        (∀ u ∈ childrenRoots pre "http://ex/data/x/", failsW u = none) →
        failsW (urlResolve (pathJoinSlash lblF) "http://ex/data/x/") = some msg →
        (InstErr.structureError "http://ex/data/x/" "disk full") =
          .structureError "http://ex/data/x/" msg ∧
        ∀ u ∈ childrenRoots pre "http://ex/data/x/", u ∈ stErrW.containers)) :=
  ⟨⟨by decide, by decide, by decide, by decide, by decide, by decide⟩,
    instantiateStatic_rollback failsW "http://ex/st" none
      [.node (some "a") [], .node (some "b") []] "http://ex/data/x/" "." "http://ex/data/"
      stW (.structureError "http://ex/data/x/" "disk full") stErrW
      (by decide) (by decide) (by decide) (by decide)⟩

/-! ## SimpleApps.cachingFetch (ecosystems/simple-apps.js lines 192-250)

Characters are handled one at a time, so strings are `List Char` here.  The
platform primitives `escape` and `decodeURIComponent` are modelled on the
fragment the cache uses: `escape` keeps `[A-Za-z0-9@*_+-./]` and emits `%XX`
(or `%uXXXX` beyond byte range); `decodeURIComponent` is modelled on
single-byte (ASCII) percent-escapes - a `%XX` with `XX >= 0x80` starts a
multi-byte UTF-8 sequence, outside the fragment reachable under the
ASCII-header hypotheses used below, and is mapped to failure like any other
malformed escape. -/

/-- Uppercase hex digit. -/
def hexDigitChar (n : Nat) : Char :=
  if n < 10 then Char.ofNat (48 + n) else Char.ofNat (55 + n)

/-- The characters JS `escape` leaves unchanged. -/
def escapeKeeps (c : Char) : Bool :=
  ('A' ≤ c ∧ c ≤ 'Z') ∨ ('a' ≤ c ∧ c ≤ 'z') ∨ ('0' ≤ c ∧ c ≤ '9') ∨
    c = '@' ∨ c = '*' ∨ c = '_' ∨ c = '+' ∨ c = '-' ∨ c = '.' ∨ c = '/'

/-- JS `escape` of one character. -/
def escapeChar (c : Char) : List Char :=
  if escapeKeeps c then [c]
  else if c.toNat < 256 then
    ['%', hexDigitChar (c.toNat / 16), hexDigitChar (c.toNat % 16)]
  else
    ['%', 'u', hexDigitChar (c.toNat / 4096 % 16), hexDigitChar (c.toNat / 256 % 16),
      hexDigitChar (c.toNat / 16 % 16), hexDigitChar (c.toNat % 16)]

/-- JS `escape`. -/
def escapeJs (s : List Char) : List Char :=
  (s.map escapeChar).flatten

/-- Hex digit value. -/
def hexVal (c : Char) : Option Nat :=
  if '0' ≤ c ∧ c ≤ '9' then some (c.toNat - 48)
  else if 'A' ≤ c ∧ c ≤ 'F' then some (c.toNat - 55)
  else if 'a' ≤ c ∧ c ≤ 'f' then some (c.toNat - 87)
  else none

/-- Modelled from the spec: WHATWG `decodeURIComponent` on the single-byte
fragment; malformed escapes (and multi-byte lead bytes, unreachable under
the ASCII hypotheses below) throw, modelled as `none`. -/
def decodeUriComp : List Char → Option (List Char)
  | [] => some []
  | c :: rest =>
    if c = '%' then
      match rest with
      | h1 :: h2 :: rest2 =>
        match hexVal h1, hexVal h2 with
        | some a, some b =>
          if 16 * a + b < 128 then
            (decodeUriComp rest2).map (fun r => Char.ofNat (16 * a + b) :: r)
          else none
        | _, _ => none
      | _ => none
    else (decodeUriComp rest).map (fun r => c :: r)

/-- Substring test (the `/date|time/` regex match on a header name). -/
def containsSub : List Char → List Char → Bool
  | [], pat => pat.isEmpty
  | c :: rest, pat => pat.isPrefixOf (c :: rest) || containsSub rest pat

/-- Whether a header is dropped by the cache-write filter (line 208-211):
its name matches `date` or `time`. -/
def headerDropped (name : List Char) : Bool :=
  containsSub name "date".data || containsSub name "time".data

/-- JS `Map.set`: overwrite in place when the key exists, append otherwise. -/
def jsMapSet (m : List (List Char × List Char)) (k v : List Char) :
    List (List Char × List Char) :=
  if m.any (fun p => p.1 = k) then m.map (fun p => if p.1 = k then (k, v) else p)
  else m ++ [(k, v)]

/-- The `reduce((map, pair) => map.set(...), new Map())` of lines 211-214
and 234-237. -/
def jsMapOfPairs (ps : List (List Char × List Char)) : List (List Char × List Char) :=
  ps.foldl (fun m p => jsMapSet m p.1 p.2) []

/-- One serialized header line (line 218-219):
`escape(key) ++ ": " ++ escape(value)`. -/
def headerLine (p : List Char × List Char) : List Char :=
  escapeJs p.1 ++ ':' :: ' ' :: escapeJs p.2

/-- `Array.join(sep)`. -/
def joinSep (sep : Char) : List (List Char) → List Char
  | [] => []
  | [l] => l
  | l :: rest => l ++ sep :: joinSep sep rest

/-- The cached image (lines 218-220): escaped header lines joined by newline,
a blank-line separator, then the raw body. -/
def mkImage (hs : List (List Char × List Char)) (body : List Char) : List Char :=
  joinSep '\n' (hs.map headerLine) ++ '\n' :: '\n' :: body

/-- `image.indexOf('\n\n')` and the two `substr` calls (lines 232-234): split
at the FIRST blank-line boundary; `none` models the junk produced when no
boundary exists (written entries always have one). -/
def splitAtDoubleNl : List Char → Option (List Char × List Char)
  | [] => none
  | c :: rest =>
    if c = '\n' then
      if rest.head? = some '\n' then some ([], rest.tail)
      else (splitAtDoubleNl rest).map (fun p => (c :: p.1, p.2))
    else (splitAtDoubleNl rest).map (fun p => (c :: p.1, p.2))

/-- One header line of the cached image, decoded (line 235): the regex
`^([^:]+): (.*)$` takes the (nonempty) colon-free key, requires the literal
": " separator, and both captures pass through decodeURIComponent; a failed
match or decode throws (`none`). -/
def parseHeaderLine (l : List Char) : Option (List Char × List Char) :=
  let key := l.takeWhile (· ≠ ':')
  if key.isEmpty then none
  else
    match l.dropWhile (· ≠ ':') with
    | ':' :: ' ' :: v =>
      match decodeUriComp key, decodeUriComp v with
      | some k2, some v2 => some (k2, v2)
      | _, _ => none
    | _ => none

/-- Reading a cached image back (lines 230-237): split at the first blank
line, split the header block on newlines, decode each line and fold the
pairs into a Map. -/
def parseImage (img : List Char) :
    Option (List (List Char × List Char) × List Char) :=
  match splitAtDoubleNl img with
  | none => none
  | some (hblock, body) =>
    ((splitSlashAux '\n' hblock []).foldlM
        (fun m l => (parseHeaderLine l).map (fun p => jsMapSet m p.1 p.2)) []).map
      (fun m => (m, body))

/-- What cachingFetch hands back to its caller (`FakeResponse`: a header Map
and a body). -/
structure FakeResp where
  headers : List (List Char × List Char)
  body : List Char
  deriving DecidableEq, Repr

/-- A response of the real network, as iterated by `Array.from(resp.headers)`. -/
structure NetResp where
  headers : List (List Char × List Char)
  body : List Char

/-- A parsed WHATWG URL: origin, pathname (with any query), fragment. -/
structure JsUrl where
  origin : String
  path : String
  hash : String
  deriving DecidableEq, Repr

def JsUrl.href (u : JsUrl) : String := u.origin ++ u.path ++ u.hash

/-- The characters `cacheName` keeps (line 249). -/
def cacheNameAllowed (c : Char) : Bool :=
  ('a' ≤ c ∧ c ≤ 'z') ∨ ('A' ≤ c ∧ c ≤ 'Z') ∨ ('0' ≤ c ∧ c ≤ '9') ∨ c = '_' ∨ c = '-'

/-- `cacheName` (lines 246-250): strip the fragment, then delete every
character outside letters, digits, '_' and '-'. -/
def cacheName (u : JsUrl) : String :=
  String.mk ((u.origin ++ u.path).data.filter cacheNameAllowed)

/-- `new URL('/', u).href`: the origin root, used by the same-origin bypass
test of line 199. -/
def originRootHref (u : JsUrl) : String :=
  urlResolve "/" u.href

/-- `new URL(cacheName(url.href), this.cacheUrl)` (line 197). -/
def cacheUrlHref (cacheRoot u : JsUrl) : String :=
  urlResolve (cacheName u) cacheRoot.href

/-- The cache storage: blobs keyed by href. -/
structure CacheState where
  store : List (String × List Char)
  deriving DecidableEq, Repr

def storeRead : List (String × List Char) → String → Option (List Char)
  | [], _ => none
  | (k, v) :: rest, href => if k = href then some v else storeRead rest href

def storeWriteA : List (String × List Char) → String → List Char → List (String × List Char)
  | [], href, img => [(href, img)]
  | (k, v) :: rest, href, img =>
    if k = href then (k, img) :: rest else (k, v) :: storeWriteA rest href img

/-- SimpleApps.cachingFetch (lines 192-241) as a function of the (
deterministic) real network, returning the response, the new cache state,
and how many real network fetches the call performed.  The three branches:
same-origin bypass (plain fetch, no caching); cache miss (fetch, filter
date/time headers, serialize, write, reply); cache hit (read, parse, reply
- `none` models the throw on an unparsable image). -/
def cachingFetch (net : String → NetResp) (cacheRoot : JsUrl) (st : CacheState)
    (u : JsUrl) : Option (FakeResp × CacheState × Nat) :=
  if originRootHref cacheRoot = originRootHref u then
    some ({ headers := (net u.href).headers, body := (net u.href).body }, st, 1)
  else
    match storeRead st.store (cacheUrlHref cacheRoot u) with
    | none =>
      let resp := net u.href
      let filtered := resp.headers.filter (fun p => ¬ headerDropped p.1)
      let hmap := jsMapOfPairs filtered
      some ({ headers := hmap, body := resp.body },
        ⟨storeWriteA st.store (cacheUrlHref cacheRoot u) (mkImage hmap resp.body)⟩, 1)
    | some image =>
      (parseImage image).map (fun p => ({ headers := p.1, body := p.2 }, st, 0))

theorem hexVal_hexDigitChar (n : Nat) (h : n < 16) :
    hexVal (hexDigitChar n) = some n := by
  interval_cases n <;> decide

theorem escapeKeeps_ne (c : Char) (h : escapeKeeps c = true) :
    c ≠ '\n' ∧ c ≠ ':' ∧ c ≠ '%' := by
  refine ⟨fun hc => ?_, fun hc => ?_, fun hc => ?_⟩ <;>
    (subst hc; exact absurd h (by decide))

theorem hexDigitChar_ne (n : Nat) (h : n < 16) :
    hexDigitChar n ≠ '\n' ∧ hexDigitChar n ≠ ':' := by
  interval_cases n <;> exact ⟨by decide, by decide⟩

theorem escapeChar_ne (c : Char) (hc : c.toNat < 128) :
    ∀ x ∈ escapeChar c, x ≠ '\n' ∧ x ≠ ':' := by
  intro x hx
  by_cases hk : escapeKeeps c
  · simp only [escapeChar, hk, if_true, List.mem_singleton] at hx
    subst hx
    exact ⟨(escapeKeeps_ne _ hk).1, (escapeKeeps_ne _ hk).2.1⟩
  · have h256 : c.toNat < 256 := by omega
    have hx2 : x = '%' ∨ x = hexDigitChar (c.toNat / 16) ∨ x = hexDigitChar (c.toNat % 16) := by
      simpa [escapeChar, hk, h256] using hx
    rcases hx2 with rfl | rfl | rfl
    · exact ⟨by decide, by decide⟩
    · exact hexDigitChar_ne _ (by omega)
    · exact hexDigitChar_ne _ (Nat.mod_lt _ (by omega))

theorem escapeJs_ne (s : List Char) (hs : ∀ c ∈ s, c.toNat < 128) :
    ∀ x ∈ escapeJs s, x ≠ '\n' ∧ x ≠ ':' := by
  intro x hx
  simp only [escapeJs, List.mem_flatten, List.mem_map] at hx
  obtain ⟨l, ⟨c, hcs, rfl⟩, hxl⟩ := hx
  exact escapeChar_ne c (hs c hcs) x hxl

theorem escapeChar_ne_nil (c : Char) : escapeChar c ≠ [] := by
  unfold escapeChar
  split
  · exact List.cons_ne_nil _ _
  · split
    · exact List.cons_ne_nil _ _
    · exact List.cons_ne_nil _ _

theorem escapeJs_cons (c : Char) (s : List Char) :
    escapeJs (c :: s) = escapeChar c ++ escapeJs s := by
  simp [escapeJs]

theorem escapeJs_ne_nil (s : List Char) (h : s ≠ []) : escapeJs s ≠ [] := by
  cases s with
  | nil => exact absurd rfl h
  | cons c rest =>
    rw [escapeJs_cons]
    intro hc
    exact escapeChar_ne_nil c (List.append_eq_nil.mp hc).1

theorem decode_cons_not_pct (c : Char) (hc : ¬ c = '%') (l : List Char) :
    decodeUriComp (c :: l) = (decodeUriComp l).map (fun r => c :: r) := by
  cases l with
  | nil => simp [decodeUriComp, hc]
  | cons d rest =>
    cases rest with
    | nil => simp [decodeUriComp, hc]
    | cons d2 rest2 => simp [decodeUriComp, hc]

theorem decode_escape (s : List Char) (h : ∀ c ∈ s, c.toNat < 128) :
    decodeUriComp (escapeJs s) = some s := by
  induction s with
  | nil => simp [escapeJs, decodeUriComp]
  | cons c rest ih =>
    have hc : c.toNat < 128 := h c (by simp)
    have ihr : decodeUriComp (escapeJs rest) = some rest :=
      ih (fun x hx => h x (by simp [hx]))
    rw [escapeJs_cons]
    by_cases hk : escapeKeeps c
    · simp only [escapeChar, hk, if_true, List.singleton_append]
      rw [decode_cons_not_pct c (escapeKeeps_ne c hk).2.2, ihr]
      rfl
    · have h256 : c.toNat < 256 := by omega
      simp only [escapeChar, hk, if_false, h256, if_true, List.cons_append,
        List.nil_append]
      have e1 := hexVal_hexDigitChar (c.toNat / 16) (by omega)
      have e2 := hexVal_hexDigitChar (c.toNat % 16) (Nat.mod_lt _ (by omega))
      simp [decodeUriComp, e1, e2, Nat.div_add_mod, hc, ihr]

theorem takeWhile_app (p : Char → Bool) (a b : List Char) (h : ∀ x ∈ a, p x = true) :
    (a ++ b).takeWhile p = a ++ b.takeWhile p := by
  induction a with
  | nil => simp
  | cons c rest ih =>
    have hc : p c = true := h c (by simp)
    simp only [List.cons_append, List.takeWhile_cons, hc, if_true]
    rw [ih (fun x hx => h x (by simp [hx]))]

theorem dropWhile_app (p : Char → Bool) (a b : List Char) (h : ∀ x ∈ a, p x = true) :
    (a ++ b).dropWhile p = b.dropWhile p := by
  induction a with
  | nil => simp
  | cons c rest ih =>
    have hc : p c = true := h c (by simp)
    simp only [List.cons_append, List.dropWhile_cons, hc, if_true]
    exact ih (fun x hx => h x (by simp [hx]))

theorem parseHeaderLine_headerLine (p : List Char × List Char)
    (hk : p.1 ≠ []) (h1 : ∀ c ∈ p.1, c.toNat < 128) (h2 : ∀ c ∈ p.2, c.toNat < 128) :
    parseHeaderLine (headerLine p) = some p := by
  obtain ⟨k, v⟩ := p
  have hkcol : ∀ x ∈ escapeJs k, (x ≠ ':' : Bool) = true := by
    intro x hx
    simpa using (escapeJs_ne k h1 x hx).2
  have htake : (headerLine (k, v)).takeWhile (· ≠ ':') = escapeJs k := by
    rw [headerLine, takeWhile_app _ _ _ hkcol]
    simp [List.takeWhile_cons]
  have hdrop : (headerLine (k, v)).dropWhile (· ≠ ':') = ':' :: ' ' :: escapeJs v := by
    rw [headerLine, dropWhile_app _ _ _ hkcol]
    simp [List.dropWhile_cons]
  rw [parseHeaderLine]
  simp only [htake, hdrop]
  have hne : escapeJs k ≠ [] := escapeJs_ne_nil k hk
  simp only [List.isEmpty_iff, hne, if_false]
  rw [decode_escape k h1, decode_escape v h2]

theorem splitAtDoubleNl_chunk (l : List Char) (hl : '\n' ∉ l) (rest : List Char) :
    splitAtDoubleNl (l ++ rest) =
      (splitAtDoubleNl rest).map (fun p => (l ++ p.1, p.2)) := by
  induction l with
  | nil =>
    simp only [List.nil_append]
    cases splitAtDoubleNl rest <;> simp
  | cons c l2 ih =>
    have hc : ¬ c = '\n' := fun hcc => hl (by simp [hcc])
    have hl2 : '\n' ∉ l2 := fun hx => hl (by simp [hx])
    simp only [List.cons_append, splitAtDoubleNl, hc, if_false, List.append_eq]
    rw [ih hl2]
    cases splitAtDoubleNl rest <;> simp

theorem splitAtDoubleNl_sep (body : List Char) :
    splitAtDoubleNl ('\n' :: '\n' :: body) = some ([], body) := by
  simp [splitAtDoubleNl]

theorem splitAtDoubleNl_sep_one (c : Char) (hc : ¬ c = '\n') (rest : List Char) :
    splitAtDoubleNl ('\n' :: c :: rest) =
      (splitAtDoubleNl (c :: rest)).map (fun p => ('\n' :: p.1, p.2)) := by
  simp [splitAtDoubleNl, hc]

theorem joinSep_cons_cons (sep : Char) (l l2 : List Char) (rest : List (List Char)) :
    joinSep sep (l :: l2 :: rest) = l ++ sep :: joinSep sep (l2 :: rest) := rfl

theorem joinSep_head (sep : Char) (l : List Char) (rest : List (List Char)) (hl : l ≠ []) :
    ∃ c cs, joinSep sep (l :: rest) = c :: cs ∧ c ∈ l := by
  obtain ⟨c, l2, rfl⟩ := List.exists_cons_of_ne_nil hl
  cases rest with
  | nil => exact ⟨c, l2, rfl, by simp⟩
  | cons r rs => exact ⟨c, l2 ++ sep :: joinSep sep (r :: rs), rfl, by simp⟩

theorem splitAtDoubleNl_join (lines : List (List Char)) (body : List Char)
    (hne : lines ≠ []) (hfree : ∀ l ∈ lines, l ≠ [] ∧ '\n' ∉ l) :
    splitAtDoubleNl (joinSep '\n' lines ++ '\n' :: '\n' :: body) =
      some (joinSep '\n' lines, body) := by
  induction lines with
  | nil => exact absurd rfl hne
  | cons l rest ih =>
    cases rest with
    | nil =>
      show splitAtDoubleNl (l ++ '\n' :: '\n' :: body) = some (l, body)
      rw [splitAtDoubleNl_chunk l (hfree l (by simp)).2, splitAtDoubleNl_sep]
      simp
    | cons l2 rest2 =>
      have hfree2 : ∀ x ∈ l2 :: rest2, x ≠ [] ∧ '\n' ∉ x := by
        intro x hx; exact hfree x (by simp [hx])
      obtain ⟨c, cs, hj, hcmem⟩ := joinSep_head '\n' l2 rest2 (hfree2 l2 (by simp)).1
      have hcne : ¬ c = '\n' := fun hcc => (hfree2 l2 (by simp)).2 (hcc ▸ hcmem)
      have ihr := ih (by simp) hfree2
      rw [joinSep_cons_cons, List.append_assoc, List.cons_append,
        splitAtDoubleNl_chunk l (hfree l (by simp)).2]
      rw [hj] at ihr ⊢
      rw [List.cons_append, splitAtDoubleNl_sep_one c hcne, ← List.cons_append, ihr]
      simp

theorem splitSlashAux_no_sep (sep : Char) (l : List Char) (hl : sep ∉ l) :
    ∀ acc, splitSlashAux sep l acc = [acc.reverse ++ l] := by
  induction l with
  | nil => intro acc; simp [splitSlashAux]
  | cons c rest ih =>
    intro acc
    have hc : ¬ c = sep := fun hcc => hl (by simp [hcc])
    have hrest : sep ∉ rest := fun hx => hl (by simp [hx])
    simp [splitSlashAux, hc, ih hrest, List.append_assoc]

theorem splitSlashAux_chunk (sep : Char) (l : List Char) (hl : sep ∉ l) (tail : List Char) :
    ∀ acc, splitSlashAux sep (l ++ sep :: tail) acc =
      (acc.reverse ++ l) :: splitSlashAux sep tail [] := by
  induction l with
  | nil => intro acc; simp [splitSlashAux]
  | cons c rest ih =>
    intro acc
    have hc : ¬ c = sep := fun hcc => hl (by simp [hcc])
    have hrest : sep ∉ rest := fun hx => hl (by simp [hx])
    simp [splitSlashAux, hc, ih hrest, List.append_assoc]

theorem split_joinSep (sep : Char) (lines : List (List Char))
    (hne : lines ≠ []) (hfree : ∀ l ∈ lines, sep ∉ l) :
    splitSlashAux sep (joinSep sep lines) [] = lines := by
  induction lines with
  | nil => exact absurd rfl hne
  | cons l rest ih =>
    cases rest with
    | nil =>
      show splitSlashAux sep l [] = [l]
      simpa using splitSlashAux_no_sep sep l (hfree l (by simp)) []
    | cons l2 rest2 =>
      rw [joinSep_cons_cons, splitSlashAux_chunk sep l (hfree l (by simp))]
      simp only [List.reverse_nil, List.nil_append]
      rw [ih (by simp) (fun x hx => hfree x (by simp [hx]))]

theorem parse_fold_lines (hs : List (List Char × List Char))
    (h2 : ∀ p ∈ hs, p.1 ≠ [] ∧ (∀ c ∈ p.1, c.toNat < 128) ∧ (∀ c ∈ p.2, c.toNat < 128)) :
    ∀ m, (hs.map headerLine).foldlM
        (fun m l => (parseHeaderLine l).map (fun p => jsMapSet m p.1 p.2)) m =
      some (hs.foldl (fun m p => jsMapSet m p.1 p.2) m) := by
  induction hs with
  | nil => intro m; rfl
  | cons p rest ih =>
    intro m
    obtain ⟨hk, ha, hb⟩ := h2 p (by simp)
    rw [List.map_cons, List.foldlM_cons, parseHeaderLine_headerLine p hk ha hb]
    exact ih (fun q hq => h2 q (by simp [hq])) (jsMapSet m p.1 p.2)

theorem mem_jsMapSet (m : List (List Char × List Char)) (k v : List Char)
    (q : List Char × List Char) (hq : q ∈ jsMapSet m k v) : q ∈ m ∨ q = (k, v) := by
  unfold jsMapSet at hq
  split at hq
  · obtain ⟨p, hp, hpe⟩ := List.mem_map.mp hq
    by_cases hpk : p.1 = k
    · right
      rw [if_pos hpk] at hpe
      exact hpe.symm
    · left
      rw [if_neg hpk] at hpe
      exact hpe ▸ hp
  · rcases List.mem_append.mp hq with h | h
    · exact Or.inl h
    · right; simpa using h

theorem entries_jsMapOfPairs (P : List Char × List Char → Prop)
    (ps : List (List Char × List Char)) (hps : ∀ p ∈ ps, P p) :
    ∀ m, (∀ q ∈ m, P q) → ∀ q ∈ ps.foldl (fun m p => jsMapSet m p.1 p.2) m, P q := by
  induction ps with
  | nil => intro m hm q hq; exact hm q hq
  | cons p rest ih =>
    intro m hm q hq
    refine ih (fun x hx => hps x (by simp [hx])) (jsMapSet m p.1 p.2) ?_ q hq
    intro x hx
    rcases mem_jsMapSet m p.1 p.2 x hx with h | h
    · exact hm x h
    · exact h ▸ (by simpa using hps p (by simp))

theorem keys_jsMapSet (m : List (List Char × List Char)) (k v : List Char) :
    (jsMapSet m k v).map Prod.fst =
      if m.any (fun p => p.1 = k) then m.map Prod.fst else m.map Prod.fst ++ [k] := by
  unfold jsMapSet
  split
  · rw [List.map_map]
    refine List.map_congr_left ?_
    intro p _
    by_cases hpk : p.1 = k <;> simp [hpk]
  · simp

theorem keys_nodup_jsMapSet (m : List (List Char × List Char)) (k v : List Char)
    (h : (m.map Prod.fst).Nodup) : ((jsMapSet m k v).map Prod.fst).Nodup := by
  rw [keys_jsMapSet]
  split
  · exact h
  · next hany =>
    rw [List.nodup_append]
    refine ⟨h, List.nodup_singleton _, ?_⟩
    intro a ha hb
    simp only [List.mem_singleton] at hb
    obtain ⟨p, hp, hpk⟩ := List.mem_map.mp ha
    exact hany (List.any_eq_true.mpr ⟨p, hp, by simp [hpk, hb]⟩)

theorem keys_nodup_fold (ps : List (List Char × List Char)) :
    ∀ m, (m.map Prod.fst).Nodup →
      ((ps.foldl (fun m p => jsMapSet m p.1 p.2) m).map Prod.fst).Nodup := by
  induction ps with
  | nil => intro m hm; exact hm
  | cons p rest ih =>
    intro m hm
    exact ih (jsMapSet m p.1 p.2) (keys_nodup_jsMapSet m p.1 p.2 hm)

theorem jsMapOfPairs_keys_nodup (ps : List (List Char × List Char)) :
    ((jsMapOfPairs ps).map Prod.fst).Nodup :=
  keys_nodup_fold ps [] (by simp)

theorem fold_of_nodup_keys (ps : List (List Char × List Char)) :
    ∀ m, (m.map Prod.fst).Nodup → ((ps.map Prod.fst).Nodup) →
      (∀ k ∈ m.map Prod.fst, k ∉ ps.map Prod.fst) →
      ps.foldl (fun m p => jsMapSet m p.1 p.2) m = m ++ ps := by
  induction ps with
  | nil => intro m _ _ _; simp
  | cons p rest ih =>
    intro m hm hps hdisj
    have hrestnd : (rest.map Prod.fst).Nodup := (List.nodup_cons.mp (by simpa using hps)).2
    have hheadout : p.1 ∉ rest.map Prod.fst := (List.nodup_cons.mp (by simpa using hps)).1
    have hknotin : ¬ (m.any fun q => q.1 = p.1) = true := by
      intro hany
      obtain ⟨q, hq, hqk⟩ := List.any_eq_true.mp hany
      have hmem : q.1 ∈ m.map Prod.fst := List.mem_map.mpr ⟨q, hq, rfl⟩
      exact hdisj q.1 hmem (by simp [of_decide_eq_true hqk])
    have hset : jsMapSet m p.1 p.2 = m ++ [p] := by
      unfold jsMapSet
      rw [if_neg hknotin]
    rw [List.foldl_cons, hset, ih (m ++ [p]) ?_ hrestnd ?_]
    · simp
    · rw [List.map_append, List.nodup_append]
      refine ⟨hm, by simp, ?_⟩
      intro a ha hb
      simp only [List.map_cons, List.map_nil, List.mem_singleton] at hb
      exact hdisj a ha (by simp [hb])
    · intro k hk
      rw [List.map_append] at hk
      rcases List.mem_append.mp hk with h | h
      · intro hkr
        exact hdisj k h (by simp [hkr])
      · simp only [List.map_cons, List.map_nil, List.mem_singleton] at h
        intro hkr
        exact hheadout (h ▸ hkr)

theorem jsMapOfPairs_of_nodup_keys (ps : List (List Char × List Char))
    (h : (ps.map Prod.fst).Nodup) : jsMapOfPairs ps = ps := by
  unfold jsMapOfPairs
  rw [fold_of_nodup_keys ps [] (by simp) h (by simp)]
  simp

theorem jsMapSet_ne_nil (m : List (List Char × List Char)) (k v : List Char) :
    jsMapSet m k v ≠ [] := by
  unfold jsMapSet
  split
  · next hany =>
    obtain ⟨q, hq, _⟩ := List.any_eq_true.mp hany
    intro hc
    rw [List.map_eq_nil_iff] at hc
    rw [hc] at hq
    simp at hq
  · intro hc
    exact absurd (List.append_eq_nil.mp hc).2 (by simp)

theorem fold_ne_nil (ps : List (List Char × List Char)) :
    ∀ m, m ≠ [] → ps.foldl (fun m p => jsMapSet m p.1 p.2) m ≠ [] := by
  induction ps with
  | nil => intro m hm; simpa using hm
  | cons p rest ih =>
    intro m _
    exact ih (jsMapSet m p.1 p.2) (jsMapSet_ne_nil m p.1 p.2)

theorem jsMapOfPairs_ne_nil (ps : List (List Char × List Char)) (h : ps ≠ []) :
    jsMapOfPairs ps ≠ [] := by
  cases ps with
  | nil => exact absurd rfl h
  | cons p rest =>
    unfold jsMapOfPairs
    rw [List.foldl_cons]
    exact fold_ne_nil rest (jsMapSet [] p.1 p.2) (jsMapSet_ne_nil [] p.1 p.2)

theorem storeRead_storeWriteA_self (s : List (String × List Char)) (href : String)
    (img : List Char) : storeRead (storeWriteA s href img) href = some img := by
  induction s with
  | nil => simp [storeWriteA, storeRead]
  | cons kv rest ih =>
    obtain ⟨k, v⟩ := kv
    by_cases hk : k = href
    · simp [storeWriteA, storeRead, hk]
    · simp [storeWriteA, storeRead, hk, ih]

theorem headerLine_wf (p : List Char × List Char)
    (hk : p.1 ≠ []) (h1 : ∀ c ∈ p.1, c.toNat < 128) (h2 : ∀ c ∈ p.2, c.toNat < 128) :
    headerLine p ≠ [] ∧ '\n' ∉ headerLine p := by
  constructor
  · intro hc
    exact escapeJs_ne_nil p.1 hk (List.append_eq_nil.mp hc).1
  · intro hc
    rw [headerLine] at hc
    rcases List.mem_append.mp hc with h | h
    · exact (escapeJs_ne p.1 h1 _ h).1 rfl
    · rcases List.mem_cons.mp h with h3 | h3
      · exact absurd h3 (by decide)
      · rcases List.mem_cons.mp h3 with h4 | h4
        · exact absurd h4 (by decide)
        · exact (escapeJs_ne p.2 h2 _ h4).1 rfl

/-- Round trip of the cache image: parsing what the miss path serialized
returns exactly the header map and the raw body, for a nonempty ASCII header
map. -/
theorem parseImage_mkImage (hs : List (List Char × List Char)) (body : List Char)
    (h1 : hs ≠ [])
    (h2 : ∀ p ∈ hs, p.1 ≠ [] ∧ (∀ c ∈ p.1, c.toNat < 128) ∧ (∀ c ∈ p.2, c.toNat < 128)) :
    parseImage (mkImage hs body) = some (jsMapOfPairs hs, body) := by
  have hlines : ∀ l ∈ hs.map headerLine, l ≠ [] ∧ '\n' ∉ l := by
    intro l hl
    obtain ⟨p, hp, rfl⟩ := List.mem_map.mp hl
    obtain ⟨hk, ha, hb⟩ := h2 p hp
    exact headerLine_wf p hk ha hb
  have hlne : hs.map headerLine ≠ [] := by
    intro hc
    exact h1 (List.map_eq_nil_iff.mp hc)
  rw [parseImage, mkImage, splitAtDoubleNl_join (hs.map headerLine) body hlne hlines]
  simp only [split_joinSep '\n' (hs.map headerLine) hlne (fun l hl => (hlines l hl).2),
    parse_fold_lines hs h2 [], Option.map_some']
  rfl

/-- C4 (amended).  For a URL whose origin differs from the cache root's,
starting from a state with no cache entry for it, and for a network response
all of whose header names and values are nonempty-keyed ASCII with at least
one header surviving the date/time filter: the first cachingFetch performs
exactly one real network fetch and the second performs none; the second
call's response equals the first's exactly (body and headers), the cache
state is unchanged by the second call, the returned body is the network
body, and no header whose name matches date or time is present in the
replayed copy.  The two extra hypotheses are forced by
`cachingFetch_replay_crash_cex`: without a surviving header, or with a
non-ASCII header value, the hit path throws instead of replaying. -/
theorem cachingFetch_idempotent (net : String → NetResp) (cacheRoot u : JsUrl)
    (st : CacheState)
    (horig : originRootHref cacheRoot ≠ originRootHref u)
    (hmiss : storeRead st.store (cacheUrlHref cacheRoot u) = none)
    (hne : (net u.href).headers.filter (fun p => ¬ headerDropped p.1) ≠ [])
    (hhdr : ∀ p ∈ (net u.href).headers,
      p.1 ≠ [] ∧ (∀ c ∈ p.1, c.toNat < 128) ∧ (∀ c ∈ p.2, c.toNat < 128)) :
    ∃ r1 st1,
      cachingFetch net cacheRoot st u = some (r1, st1, 1) ∧
      cachingFetch net cacheRoot st1 u = some (r1, st1, 0) ∧
      r1.body = (net u.href).body ∧
      (∀ p ∈ r1.headers, headerDropped p.1 = false) := by
  set filtered := (net u.href).headers.filter (fun p => ¬ headerDropped p.1) with hfiltered
  have hfprop : ∀ p ∈ filtered, p.1 ≠ [] ∧ (∀ c ∈ p.1, c.toNat < 128) ∧
      (∀ c ∈ p.2, c.toNat < 128) := by
    intro p hp
    exact hhdr p (List.mem_filter.mp hp).1
  have hmprop : ∀ p ∈ jsMapOfPairs filtered, p.1 ≠ [] ∧ (∀ c ∈ p.1, c.toNat < 128) ∧
      (∀ c ∈ p.2, c.toNat < 128) :=
    entries_jsMapOfPairs _ filtered hfprop [] (by simp)
  have hmne : jsMapOfPairs filtered ≠ [] := jsMapOfPairs_ne_nil filtered hne
  have hidem : jsMapOfPairs (jsMapOfPairs filtered) = jsMapOfPairs filtered :=
    jsMapOfPairs_of_nodup_keys _ (jsMapOfPairs_keys_nodup filtered)
  refine ⟨{ headers := jsMapOfPairs filtered, body := (net u.href).body },
    ⟨storeWriteA st.store (cacheUrlHref cacheRoot u)
      (mkImage (jsMapOfPairs filtered) (net u.href).body)⟩, ?_, ?_, rfl, ?_⟩
  · simp [cachingFetch, horig, hmiss, hfiltered]
  · rw [cachingFetch, if_neg horig]
    simp only [storeRead_storeWriteA_self,
      parseImage_mkImage (jsMapOfPairs filtered) (net u.href).body hmne hmprop,
      Option.map_some']
    rw [hidem]
  · intro p hp
    have := entries_jsMapOfPairs (fun q => headerDropped q.1 = false) filtered ?_ [] (by simp) p hp
    · exact this
    · intro q hq
      have := (List.mem_filter.mp hq).2
      simpa using this

/-- The concrete C4 scenario: a foreign-origin URL whose response carries a
content-type header and a date header. -/
def netW : String → NetResp :=
  fun _ => ⟨[("content-type".data, "text/turtle".data), ("date".data, "Mon".data)],
    "BODY".data⟩

def cacheRootW : JsUrl := ⟨"http://localhost", "/Cache/", ""⟩

def uW : JsUrl := ⟨"http://ex", "/st", ""⟩

/-- C4 witness: the hypotheses hold for the concrete scenario, so fetching
http://ex/st twice from a cold cache does one real fetch then replays the
identical (date-filtered) response from the cache. -/
theorem cachingFetch_idempotent_witness :
    (originRootHref cacheRootW ≠ originRootHref uW ∧
     storeRead (CacheState.mk []).store (cacheUrlHref cacheRootW uW) = none ∧
     (netW uW.href).headers.filter (fun p => ¬ headerDropped p.1) ≠ [] ∧
     (∀ p ∈ (netW uW.href).headers,
       p.1 ≠ [] ∧ (∀ c ∈ p.1, c.toNat < 128) ∧ (∀ c ∈ p.2, c.toNat < 128))) ∧
    (∃ r1 st1,
      cachingFetch netW cacheRootW ⟨[]⟩ uW = some (r1, st1, 1) ∧
      cachingFetch netW cacheRootW st1 uW = some (r1, st1, 0) ∧
      r1.body = (netW uW.href).body ∧
      (∀ p ∈ r1.headers, headerDropped p.1 = false)) :=
  ⟨⟨by decide, by decide, by decide, by decide⟩,
    cachingFetch_idempotent netW cacheRootW uW ⟨[]⟩
      (by decide) (by decide) (by decide) (by decide)⟩

/-- A network whose response carries only a date header: the miss path
filters it away, so the cached image has an empty header block. -/
def netX : String → NetResp :=
  fun _ => ⟨[("date".data, "Mon".data)], "BODY".data⟩

/-- A network whose response carries a Latin-1 header value (é, code point
233): `escape` serializes it as %E9, which `decodeURIComponent` rejects. -/
def netY : String → NetResp :=
  fun _ => ⟨[("x-note".data, ['é']), ("content-type".data, "text/turtle".data)],
    "B2".data⟩

/-- C4 counterexample.  The claim as stated is false: there are cross-origin
URLs on which the second cachingFetch call does not replay the first call's
response but throws.  (1) When the response's only header matches the
date/time filter, the cached image is "\n\nBODY" with an empty header block;
on the hit path `"".split(/\n/)` gives `[""]`, the line regex does not match,
and `null.map(decodeURIComponent)` throws a TypeError.  (2) When a header
value holds a byte >= 0x80 (here é), the image holds `%E9` and
`decodeURIComponent` throws a URIError on replay.  In both cases the first
call succeeds (one network fetch) and the second call crashes (modelled
`none`) instead of returning the first call's body and headers. -/
theorem cachingFetch_replay_crash_cex :
    originRootHref cacheRootW ≠ originRootHref uW ∧
    (cachingFetch netX cacheRootW ⟨[]⟩ uW =
        some (⟨[], "BODY".data⟩,
          ⟨[("http://localhost/Cache/httpexst", "\n\nBODY".data)]⟩, 1) ∧
      cachingFetch netX cacheRootW
        ⟨[("http://localhost/Cache/httpexst", "\n\nBODY".data)]⟩ uW = none) ∧
    (cachingFetch netY cacheRootW ⟨[]⟩ uW =
        some (⟨[("x-note".data, ['é']), ("content-type".data, "text/turtle".data)],
            "B2".data⟩,
          ⟨[("http://localhost/Cache/httpexst",
            "x-note: %E9\ncontent-type: text/turtle\n\nB2".data)]⟩, 1) ∧
      cachingFetch netY cacheRootW
        ⟨[("http://localhost/Cache/httpexst",
          "x-note: %E9\ncontent-type: text/turtle\n\nB2".data)]⟩ uW = none) := by
  decide

/-- The C10 scenario: two distinct foreign-origin URLs that differ only in
the placement of '/', with different network content. -/
def netC : String → NetResp :=
  fun href => if href = "http://ex/ab"
    then ⟨[("content-type".data, "text/turtle".data)], "AAA".data⟩
    else ⟨[("content-type".data, "text/turtle".data)], "BBB".data⟩

def rootC : JsUrl := ⟨"http://localhost", "/Cache/", ""⟩

def u1C : JsUrl := ⟨"http://ex", "/ab", ""⟩

def u2C : JsUrl := ⟨"http://ex", "/a/b", ""⟩

/-- The response and state produced by the first (miss) call on u1C. -/
def r1C : FakeResp := ⟨[("content-type".data, "text/turtle".data)], "AAA".data⟩

def st1C : CacheState :=
  ⟨[("http://localhost/Cache/httpexab", ("content-type: text/turtle\n\nAAA").data)]⟩

/-- C10.  The cache-key function is not injective: http://ex/ab and
http://ex/a/b are distinct URLs with the same key "httpexab", so after
cachingFetch(u1) populates the cache, cachingFetch(u2) performs no network
fetch and replays u1's cached headers and body - although the network's
answer for u2 is different. -/
theorem cacheName_collision_cross_read :
    u1C ≠ u2C ∧
    cacheName u1C = cacheName u2C ∧
    (netC u1C.href).body ≠ (netC u2C.href).body ∧
    cachingFetch netC rootC ⟨[]⟩ u1C = some (r1C, st1C, 1) ∧
    cachingFetch netC rootC st1C u2C = some (r1C, st1C, 0) ∧
    r1C.body ≠ (netC u2C.href).body := by
  decide
